import Mathlib

/-!
Verification of the jellyfuzz core against its specification.

Shallow embedding of the claim-relevant parts of the jellyfuzz JavaScript
engine fuzzer:

* `src/runner/pool.rs` — the worker's stability filter
  (`FuzzWorker::confirm_new_edges`), the per-job execution path
  (`FuzzWorker::start_internal`) and the shared `EdgeTracker`;
* `src/corpus/manager.rs` — the on-disk corpus manager;
* `src/main.rs` — the fuzz loop's result handler and crash persistence;
* `src/mutators/mod.rs` — managed mutator statistics and the bandit weight;
* `src/mutators/*` — the mutator catalogue, its applicability counts and
  the per-literal value transformations of `NumericTweaker`.

Machine integers are modelled as `ℕ`/`ℤ`; `f64` values are modelled exactly
as rationals extended with `NaN` and signed infinities (`FVal`), so the
arithmetic the mutators perform (integral steps, halving/doubling, rounding,
clamping) is exact.  Randomness is modelled by passing the sampled values
(indices, modes, steps) as explicit arguments.  Disk and lock side effects
are modelled as explicit event lists in the order the code performs them.
-/

namespace Jellyfuzz

/-! ## Edge tracker and the stability filter (`src/runner/pool.rs`)

`EdgeTracker` mirrors the Rust struct: a process-global set of seen edges,
a per-edge instability (reset) counter stored in the `blacklist` map
(absent keys read as 0, mirrored here by a total function), and the
blacklist threshold `max_resets`. -/

structure EdgeTracker where
  seen_edges : Finset ℕ
  blacklist : ℕ → ℕ
  max_resets : ℕ

/-- An edge is blacklisted once its reset count has reached `max_resets`
(`tracker.blacklist.get(&edge).unwrap_or(&0) >= &tracker.max_resets`). -/
def EdgeTracker.blacklisted (t : EdgeTracker) (e : ℕ) : Prop :=
  t.max_resets ≤ t.blacklist e

instance (t : EdgeTracker) (e : ℕ) : Decidable (t.blacklisted e) := by
  unfold EdgeTracker.blacklisted; infer_instance

/-- Outcome of the re-execution inside `confirm_new_edges`: the second
`self.process.execute` either times out, fails with another I/O error, or
completes, in which case `cov_evaluate` yields a `new_cov` flag and an edge
list (`none` models a null `edge_indices` pointer). -/
inductive Run2 where
  | timeout
  | execErr
  | eval (newCov : Bool) (edges : Option (List ℕ))
deriving DecidableEq, Repr

/-- The edge list the second run reported (empty when it reported none). -/
def Run2.reported : Run2 → List ℕ
  | .eval _ (some es) => es
  | _ => []

/-- Total increment `confirm_new_edges` applies to `blacklist[e]`: the two
loops put one `aux_tracker` increment per occurrence of `e` in
`candidate_edges` outside the second run's set, plus one per occurrence of
`e` in the second run's slice outside the candidate set; the map is then
folded into the shared tracker with `*entry += count`. -/
def auxCount (cand second : List ℕ) (e : ℕ) : ℕ :=
  (if e ∈ second then 0 else cand.count e) +
    (if e ∈ cand then 0 else second.count e)

/-- The curation loop at the end of `confirm_new_edges`: walk the stable
edges, skip any that is blacklisted or already seen, insert the rest into
`seen_edges` and collect them. -/
def curate : EdgeTracker → List ℕ → EdgeTracker × List ℕ
  | t, [] => (t, [])
  | t, e :: rest =>
    if t.max_resets ≤ t.blacklist e ∨ e ∈ t.seen_edges then
      curate t rest
    else
      let t' := { t with seen_edges := insert e t.seen_edges }
      let r := curate t' rest
      (r.1, e :: r.2)

/-- Mirrors `FuzzWorker::confirm_new_edges` (src/runner/pool.rs:215-313).  Returns
the updated shared tracker together with the curated stable edges.  Mirrors
the source's order: empty-candidate guard, timeout/error early returns,
null-pointer early return, stable-set construction (`second_slice` filtered
by membership in the candidate set), the `new_cov != 1` early return, and
only then the tracker update under the write lock. -/
def confirm_new_edges (t : EdgeTracker) (cand : List ℕ) (run2 : Run2) :
    EdgeTracker × List ℕ :=
  if cand = [] then (t, [])
  else
    match run2 with
    | .timeout => (t, [])
    | .execErr => (t, [])
    | .eval _ none => (t, [])
    | .eval newCov (some second) =>
      let stable := second.filter (fun e => e ∈ cand)
      if newCov = false then (t, [])
      else
        let t1 : EdgeTracker :=
          { t with blacklist := fun e => t.blacklist e + auxCount cand second e }
        curate t1 stable

/-! ## The per-job execution path (`FuzzWorker::start_internal`) -/

/-- Result of the first `self.process.execute` call. -/
inductive Exec1 where
  | timeout
  | ioErr
  | ok (exit_code signal : ℤ)
deriving DecidableEq, Repr

/-- Mirrors `JobResult` (src/runner/pool.rs:48-56). -/
structure JobResult where
  status_code : ℤ
  signal : ℤ
  new_coverage : Bool
  edge_hits : List ℕ
  is_crash : Bool
  is_timeout : Bool
deriving DecidableEq, Repr

/-- All external inputs consumed by one `start_internal` call: the first
execution's status, the first `cov_evaluate` outcome (`new_cov` flag and
possibly-null edge list), and the stability re-run's outcome. -/
structure ExecInput where
  exec1 : Exec1
  newCov1 : Bool
  edges1 : Option (List ℕ)
  run2 : Run2
deriving DecidableEq, Repr

/-- Mirrors `FuzzWorker::start_internal` (src/runner/pool.rs:132-212), threading the
shared edge tracker explicitly.  The timeout early-return, first coverage
evaluation, stability confirmation, crash classification, and the final
`JobResult` assembly mirror the source line by line. -/
def start_internal (t : EdgeTracker) (inp : ExecInput) :
    EdgeTracker × JobResult :=
  match inp.exec1 with
  | .timeout =>
    (t, { status_code := -1, signal := 0, new_coverage := false,
          edge_hits := [], is_crash := false, is_timeout := true })
  | e1 =>
    let edge_hits : List ℕ :=
      match e1, inp.edges1 with
      | .ok _ _, some es => if inp.newCov1 then es else []
      | _, _ => []
    let new_cov_flag : Bool :=
      match e1 with
      | .ok _ _ => inp.newCov1
      | _ => false
    let confirmed : EdgeTracker × Bool × List ℕ :=
      if new_cov_flag ∧ edge_hits ≠ [] then
        let r := confirm_new_edges t edge_hits inp.run2
        if r.2 = [] then (r.1, false, []) else (r.1, true, r.2)
      else (t, new_cov_flag, edge_hits)
    let (status_code, signal, is_crash) : ℤ × ℤ × Bool :=
      match e1 with
      | .ok ec sg => (ec, sg, false)
      | _ => (-1, -1, true)
    (confirmed.1,
      { status_code := status_code, signal := signal,
        new_coverage := confirmed.2.1, edge_hits := confirmed.2.2,
        is_crash := is_crash, is_timeout := false })

/-- A worker trace: fold `start_internal` over a list of job inputs against
the shared tracker, collecting every `JobResult`.  Workers share the tracker
through a write lock, so any interleaving of their confirm sections is some
sequential order of this form. -/
def runJobs (t : EdgeTracker) : List ExecInput → EdgeTracker × List JobResult
  | [] => (t, [])
  | inp :: rest =>
    let r := start_internal t inp
    let rr := runJobs r.1 rest
    (rr.1, r.2 :: rr.2)

/-! ## Corpus manager (`src/corpus/manager.rs`)

Rewards and times are modelled as `ℚ` and `ℕ`.  Disk side effects are
modelled as an ordered list of `DiskEvent`s, in the order the method
performs them.  The fingerprint hash (`DefaultHasher` over
`(script_bytes, edge_hits)`) is kept as an explicit function parameter
`fp`: the source's contract is only that it is a deterministic function of
those two inputs. -/

structure CorpusEntry where
  id : ℕ
  path : String
  fingerprint : ℕ
  edge_hits : List ℕ
  size_bytes : ℕ
  total_reward : ℚ
  last_reward : ℚ
  exec_time_ms : ℕ
  num_mutations : ℕ
  last_selected_ts : Option ℕ
deriving DecidableEq, Repr

structure CorpusManager where
  entries : List CorpusEntry
  next_id : ℕ
deriving DecidableEq, Repr

inductive DiskEvent where
  | writeSeedFile (path : String) (bytes : List ℕ)
  | writeTimeoutFile (path : String) (bytes : List ℕ)
  | removeSeedFile (path : String)
  | writeTempMetadata
  | renameMetadata
deriving DecidableEq, Repr

/-- Mirrors `CorpusManager::persist`: write the full metadata to `metadata.json.tmp`
and atomically rename it to `metadata.json`. -/
def persistEvents : List DiskEvent := [.writeTempMetadata, .renameMetadata]

/-- Mirrors `CorpusManager::contains_fingerprint` (src/corpus/manager.rs:96-100). -/
def CorpusManager.contains_fingerprint (m : CorpusManager) (fingerprint : ℕ) :
    Bool :=
  m.entries.any (fun entry => entry.fingerprint = fingerprint)

/-- Mirrors `CorpusManager::add_entry` (src/corpus/manager.rs:127-184).  `fp` is the
fingerprint hash; returns the new state, the disk events in order, and the
accepted entry if any.  The duplicate check precedes every state change;
the timeout branch allocates the id, writes the sidecar file and returns
`None` without touching `entries` or persisting metadata. -/
def add_entry (fp : List ℕ → List ℕ → ℕ) (m : CorpusManager)
    (script_bytes edge_hits : List ℕ) (reward : ℚ) (exec_time_ms : ℕ)
    (is_timeout : Bool) :
    CorpusManager × List DiskEvent × Option CorpusEntry :=
  let fingerprint := fp script_bytes edge_hits
  if m.contains_fingerprint fingerprint then (m, [], none)
  else
    let id := m.next_id
    let m1 : CorpusManager := { m with next_id := m.next_id + 1 }
    let file_name := "seed_" ++ toString id ++ ".js"
    if is_timeout then
      (m1, [.writeTimeoutFile ("timeouts/" ++ file_name) script_bytes], none)
    else
      let entry : CorpusEntry :=
        { id := id, path := file_name, fingerprint := fingerprint,
          edge_hits := edge_hits, size_bytes := script_bytes.length,
          total_reward := max reward 0, last_reward := reward,
          exec_time_ms := exec_time_ms, num_mutations := 0,
          last_selected_ts := none }
      ({ m1 with entries := m1.entries ++ [entry] },
        [.writeSeedFile file_name script_bytes] ++ persistEvents, some entry)

/-- Update the first list element satisfying `p` (the manager looks entries
up with `iter_mut().find(...)`). -/
def updateFirst (p : CorpusEntry → Bool) (f : CorpusEntry → CorpusEntry) :
    List CorpusEntry → List CorpusEntry
  | [] => []
  | e :: rest =>
    if p e then f e :: rest else e :: updateFirst p f rest

/-- Mirrors `CorpusManager::record_result` (src/corpus/manager.rs:117-125): update
the matching entry's rewards and exec time, then persist; no-op when the id
is absent. -/
def record_result (m : CorpusManager) (id : ℕ) (reward : ℚ)
    (exec_time_ms : ℕ) : CorpusManager × List DiskEvent :=
  if m.entries.any (fun entry => entry.id = id) then
    let upd : CorpusEntry → CorpusEntry := fun entry =>
      { entry with
        last_reward := reward,
        total_reward := entry.total_reward + reward,
        exec_time_ms := exec_time_ms }
    let entries := updateFirst (fun entry => entry.id = id) upd m.entries
    ({ m with entries := entries }, persistEvents)
  else (m, [])

/-- Mirrors `CorpusManager::remove_entry` (src/corpus/manager.rs:186-198): drop the
matching entry, remove its file, persist; no-op when the id is absent. -/
def remove_entry (m : CorpusManager) (id : ℕ) :
    CorpusManager × List DiskEvent :=
  match m.entries.findIdx? (fun entry => entry.id = id) with
  | Option.none => (m, [])
  | Option.some pos =>
    let path := ((m.entries.get? pos).map CorpusEntry.path).getD ("")
    ({ m with entries := m.entries.eraseIdx pos },
      [.removeSeedFile path] ++ persistEvents)

/-- Mirrors `CorpusManager::pick_random` (src/corpus/manager.rs:102-115): bump the
selected entry's `num_mutations`, stamp `last_selected_ts`, and return its
id and path.  `idx` is the value drawn by `rng.random_range(0..len)` (always
`< len` when the list is nonempty) and `now` the current timestamp.  The
method performs no disk I/O. -/
def pick_random (m : CorpusManager) (idx : ℕ) (now : ℕ) :
    CorpusManager × List DiskEvent × Option (ℕ × String) :=
  if m.entries = [] then (m, [], none)
  else if h : idx < m.entries.length then
    let entry := m.entries.get ⟨idx, h⟩
    let entry' := { entry with
                    num_mutations := entry.num_mutations + 1,
                    last_selected_ts := some now }
    ({ m with entries := m.entries.set idx entry' }, [],
      some (entry.id, entry.path))
  else (m, [], none)

/-- One corpus-manager call, with its random/external inputs made explicit. -/
inductive CorpusOp where
  | add (script edges : List ℕ) (reward : ℚ) (time : ℕ) (is_timeout : Bool)
  | record (id : ℕ) (reward : ℚ) (time : ℕ)
  | remove (id : ℕ)
  | pick (idx now : ℕ)
deriving DecidableEq, Repr

def applyOp (fp : List ℕ → List ℕ → ℕ) (m : CorpusManager) :
    CorpusOp → CorpusManager
  | .add script edges reward time is_timeout =>
    (add_entry fp m script edges reward time is_timeout).1
  | .record id reward time => (record_result m id reward time).1
  | .remove id => (remove_entry m id).1
  | .pick idx now => (pick_random m idx now).1

def applyOps (fp : List ℕ → List ℕ → ℕ) (m : CorpusManager)
    (ops : List CorpusOp) : CorpusManager :=
  ops.foldl (applyOp fp) m

/-- All live entries carry pairwise distinct fingerprints. -/
def distinctFingerprints (m : CorpusManager) : Prop :=
  (m.entries.map CorpusEntry.fingerprint).Nodup

instance (m : CorpusManager) : Decidable (distinctFingerprints m) := by
  unfold distinctFingerprints
  infer_instance

/-! ## The fuzz loop's result handler (`src/main.rs`, `run_fuzz_loop`)

The handler task spawned per job (src/main.rs:412-497) is modelled as the
ordered list of observable actions it performs on the mutator statistics,
the corpus manager and the crash directory. -/

inductive LoopEvent where
  | recordReward (reward : ℚ)
  | recordInvalid
  | recordTimeout
  | corpusRecordResult (id : ℕ) (reward : ℚ)
  | corpusAddTimeout
  | persistCrash (iter : ℕ)
  | corpusAddEntry
deriving DecidableEq, Repr

/-- Events that update the chosen mutator's statistics
(`uses`, `total_reward`, `mean_reward`, `invalid_count`, `timeout_count`). -/
def isMutatorStatEvent : LoopEvent → Bool
  | .recordReward _ => true
  | .recordInvalid => true
  | .recordTimeout => true
  | _ => false

def isCrashWrite : LoopEvent → Bool
  | .persistCrash _ => true
  | _ => false

/-- Mirrors `compute_reward` (src/main.rs:548-558). -/
def compute_reward (r : JobResult) : ℚ :=
  if r.is_crash then 5
  else if r.new_coverage then 1
  else if r.is_timeout then -1
  else 0

/-- The result-handler task of `run_fuzz_loop` (src/main.rs:412-497) as an
event trace: mutator stats first (`record_reward`, `record_invalid`,
`record_timeout`), then corpus `record_result` and the timeout sidecar, then
the crash block (which writes `crashes/crash_<iter>.js` and returns), and
otherwise the new-coverage corpus addition. -/
def result_handler_events (iter id : ℕ) (r : JobResult) : List LoopEvent :=
  let reward := compute_reward r
  [LoopEvent.recordReward reward]
    ++ (if r.is_timeout ∨ r.status_code ≠ 0 then [LoopEvent.recordInvalid]
        else [])
    ++ (if r.is_timeout then [LoopEvent.recordTimeout] else [])
    ++ [LoopEvent.corpusRecordResult id reward]
    ++ (if r.is_timeout then [LoopEvent.corpusAddTimeout] else [])
    ++ (if r.is_crash then [LoopEvent.persistCrash iter]
        else if r.new_coverage ∧ r.status_code = 0 ∧ ¬r.is_timeout then
          [LoopEvent.corpusAddEntry]
        else [])

/-- The property claimed of the handler: every crash write precedes every
mutator-statistics update in the trace. -/
def crashWrittenBeforeStats (evs : List LoopEvent) : Prop :=
  ∀ i j : Fin evs.length,
    isCrashWrite (evs.get i) → isMutatorStatEvent (evs.get j) →
      (i : ℕ) < (j : ℕ)

instance (evs : List LoopEvent) : Decidable (crashWrittenBeforeStats evs) := by
  unfold crashWrittenBeforeStats; infer_instance

/-! ## Managed mutator statistics and the bandit weight
(`src/mutators/mod.rs`) -/

structure MutatorStats where
  mean_reward : ℚ
  total_reward : ℚ
  uses : ℕ
  last_reward : ℚ
  invalid_count : ℕ
  timeout_count : ℕ
deriving DecidableEq, Repr

/-- Mirrors `MutatorStats::default` (src/mutators/mod.rs:33-44). -/
def MutatorStats.init : MutatorStats :=
  { mean_reward := 0, total_reward := 0, uses := 0, last_reward := 0,
    invalid_count := 0, timeout_count := 0 }

/-- The statistics side of `ManagedMutator::mutate` / `::splice`
(src/mutators/mod.rs:67-76): both bump `uses` by one before delegating. -/
def MutatorStats.useBump (s : MutatorStats) : MutatorStats :=
  { s with uses := s.uses + 1 }

/-- Mirrors `ManagedMutator::record_reward` (src/mutators/mod.rs:82-92). -/
def MutatorStats.recordReward (s : MutatorStats) (reward : ℚ) : MutatorStats :=
  let uses := s.uses + 1
  let total := s.total_reward + reward
  { s with
    uses := uses, total_reward := total,
    mean_reward := if uses = 0 then 0 else total / (uses : ℚ),
    last_reward := reward }

/-- One completed fuzzing attempt: the loop calls `mutate` (or `splice`),
then `record_reward` once the result arrives. -/
def MutatorStats.attempt (s : MutatorStats) (reward : ℚ) : MutatorStats :=
  (s.useBump).recordReward reward

def MutatorStats.runAttempts (s : MutatorStats) (rs : List ℚ) : MutatorStats :=
  rs.foldl MutatorStats.attempt s

/-- The selection weight of `get_weighted_ast_mutator_choice`
(src/mutators/mod.rs:180-202). -/
def banditWeight (s : MutatorStats) : ℚ :=
  if s.uses = 0 then 1
  else if 0 < s.mean_reward then s.mean_reward
  else 1 / 10

/-! ## Exact model of the `f64` values the NumericTweaker manipulates

`FVal` is a rational extended with `NaN` and the two infinities.  Finite
arithmetic is exact (no rounding to 53-bit precision and no overflow), which
is adequate here: the tweaker's loop-test and array-index paths only add
small integers, halve, double, round and clamp.  Signed zero is collapsed
into `fin 0` (as in IEEE, `-0.0 == 0.0`). -/

inductive FVal where
  | nan
  | inf (neg : Bool)
  | fin (q : ℚ)
deriving DecidableEq, Repr

namespace FVal

def isFinite : FVal → Bool
  | .fin _ => true
  | _ => false

def add : FVal → FVal → FVal
  | .nan, _ => .nan
  | _, .nan => .nan
  | .inf b, .inf b' => if b = b' then .inf b else .nan
  | .inf b, .fin _ => .inf b
  | .fin _, .inf b => .inf b
  | .fin q, .fin r => .fin (q + r)

/-- Multiplication by a positive rational constant (the tweaker multiplies
by `0.5` and `2.0` only). -/
def mulPos : FVal → ℚ → FVal
  | .nan, _ => .nan
  | .inf b, _ => .inf b
  | .fin q, c => .fin (q * c)

/-- IEEE `<`: comparisons with NaN are false. -/
def flt : FVal → FVal → Bool
  | .nan, _ => false
  | _, .nan => false
  | .inf true, .inf true => false
  | .inf true, _ => true
  | .inf false, _ => false
  | .fin _, .inf true => false
  | .fin _, .inf false => true
  | .fin q, .fin r => decide (q < r)

/-- IEEE `==`: comparisons with NaN are false. -/
def feq : FVal → FVal → Bool
  | .nan, _ => false
  | _, .nan => false
  | .inf b, .inf b' => b = b'
  | .fin q, .fin r => decide (q = r)
  | _, _ => false

/-- Rust's round-half-away-from-zero on rationals. -/
def roundQ (q : ℚ) : ℤ :=
  if 0 ≤ q then ⌊q + 1 / 2⌋ else -⌊-q + 1 / 2⌋

/-- Mirrors `f64::round`: NaN and infinities round to themselves. -/
def roundRust : FVal → FVal
  | .nan => .nan
  | .inf b => .inf b
  | .fin q => .fin (roundQ q)

/-- Mirrors `f64::clamp(lo, hi)`: `lo` if below, `hi` if above, NaN propagates. -/
def clampRust (v : FVal) (lo hi : ℚ) : FVal :=
  if v.flt (.fin lo) then .fin lo
  else if (FVal.fin hi).flt v then .fin hi
  else v

end FVal

/-! ## `NumericTweaker`'s special literal handling
(`src/mutators/literals/numeric_tweaker.rs`) -/

/-- Mirrors `NumericTweakerVisitor::clamp_for_test_bound`
(src/mutators/literals/numeric_tweaker.rs:45-67): fall back to the original
on non-finite values, clamp to `[-1000, 1000]`, force negatives to 0, and
avoid turning a clearly bounded loop into a no-op. -/
def clamp_for_test_bound (original value : FVal) : FVal :=
  let v0 := if value.isFinite then value else original
  let v1 := v0.clampRust (-1000) 1000
  let v2 := if v1.flt (.fin 0) then .fin 0 else v1
  if v2.feq (.fin 0) ∧ (FVal.fin 0).flt original then .fin 1 else v2

/-- The mode drawn by the weighted table for a literal inside a classical
`for` statement's test clause. -/
inductive ForTestMode where
  | inc | dec | scaleDown | scaleUp | keep
deriving DecidableEq, Repr

/-- The `"test"` arm of `NumericTweakerVisitor::visit_mut_lit`
(src/mutators/literals/numeric_tweaker.rs:174-219): apply the drawn
perturbation (`step` is the `1..=5` integer drawn for inc/dec), snap to the
nearest integer, then clamp via `clamp_for_test_bound`. -/
def forTestTweak (original : FVal) (mode : ForTestMode) (step : ℤ) : FVal :=
  let nv :=
    match mode with
    | .inc => original.add (.fin step)
    | .dec => original.add (.fin (-step))
    | .scaleDown => original.mulPos (1 / 2)
    | .scaleUp => original.mulPos 2
    | .keep => original
  clamp_for_test_bound original nv.roundRust

/-- The choice drawn by the weighted table for a literal used as a computed
member index. -/
inductive ArrayIdxChoice where
  | keep | smallDelta | randomSmall | zero | one
deriving DecidableEq, Repr

/-- The array-index arm of `NumericTweakerVisitor::visit_mut_lit`
(src/mutators/literals/numeric_tweaker.rs:228-271): apply the drawn choice
(`delta` is the `-3..=3` draw, `small` the `0..=32` draw), then clamp to
`[0, ARRAY_INDEX_MAX]` and snap to integer. -/
def arrayIndexTweak (original : FVal) (choice : ArrayIdxChoice) (delta : ℤ)
    (small : ℕ) : FVal :=
  let nv :=
    match choice with
    | .smallDelta => (original.add (.fin delta)).roundRust
    | .randomSmall => .fin small
    | .zero => .fin 0
    | .one => .fin 1
    | .keep => original
  let nv1 := if nv.flt (.fin 0) then .fin 0 else nv
  let nv2 := if (FVal.fin 1024).flt nv1 then .fin 1024 else nv1
  nv2.roundRust

/-- Holds when `v` is a finite integral value within `[lo, hi]`. -/
def FVal.isIntIn (v : FVal) (lo hi : ℤ) : Prop :=
  ∃ n : ℤ, v = .fin (n : ℚ) ∧ lo ≤ n ∧ n ≤ hi

/-! ## Embedded JavaScript AST (the `swc` `Script` surface the mutators
traverse)

A representative embedding of the AST shapes the catalogue mutators
inspect: literals (the `raw` text of a number, a re-emission detail, is not
carried), identifiers, array literals with holes, binary expressions with
the operators of `OPS_GROUPS`, member expressions (named and computed),
calls, assignments; statements include classical `for` (whose init may be a
declaration list), blocks, `if`, function declarations and returns.  List
and option shapes are part of the mutual inductive so that all traversals
are structurally recursive. -/

inductive JLit where
  | num (value : FVal)
  | bool (b : Bool)
  | str (s : String)
  | nullLit
  | bigint (s : String)
  | regex (s : String)
deriving DecidableEq, Repr

inductive BinOp where
  | add | sub | mul | div | mod | exp
  | logAnd | logOr
  | bitOr | bitAnd | bitXor | shl | shr | ushr
  | eqeq | neq | eqeqeq | neqeqeq | ltOp | leOp | gtOp | geOp
  | inOp | instanceOf
deriving DecidableEq, Repr

mutual

inductive JExpr where
  | lit (l : JLit)
  | ident (name : String)
  | array (elems : JElems)
  | bin (op : BinOp) (lhs rhs : JExpr)
  | memberNamed (obj : JExpr) (prop : String)
  | memberComputed (obj : JExpr) (idx : JExpr)
  | call (callee : JExpr) (args : JExprs)
  | assign (lhs rhs : JExpr)

inductive JExprs where
  | nil
  | cons (hd : JExpr) (tl : JExprs)

inductive JElems where
  | nil
  | consSome (hd : JExpr) (tl : JElems)
  | consNone (tl : JElems)

inductive JOExpr where
  | none
  | some (e : JExpr)

inductive JStmt where
  | exprStmt (e : JExpr)
  | varDecl (decls : JDecls)
  | block (stmts : JStmts)
  | ifStmt (test : JExpr) (cons : JStmt) (alt : JOStmt)
  | forStmt (finit : JForInit) (test update : JOExpr) (body : JStmt)
  | funcDecl (name : String) (params : List String) (body : JStmts)
  | ret (arg : JOExpr)

inductive JStmts where
  | nil
  | cons (hd : JStmt) (tl : JStmts)

inductive JOStmt where
  | none
  | some (s : JStmt)

inductive JDecls where
  | nil
  | cons (name : String) (finit : JOExpr) (tl : JDecls)

inductive JForInit where
  | none
  | expr (e : JExpr)
  | decls (ds : JDecls)

end

structure JScript where
  body : JStmts

/-! ### Applicability counts

Each single-shot mutator first walks the AST counting applicable sites
(`Count*` visitors in the source); the generic `cnt*` family mirrors the
default full traversal with a per-node contribution `p`. -/

mutual

def cntE (p : JExpr → ℕ) : JExpr → ℕ
  | .lit l => p (.lit l)
  | .ident n => p (.ident n)
  | .array elems => p (.array elems) + cntEls p elems
  | .bin op lhs rhs => p (.bin op lhs rhs) + cntE p lhs + cntE p rhs
  | .memberNamed obj pr => p (.memberNamed obj pr) + cntE p obj
  | .memberComputed obj idx =>
    p (.memberComputed obj idx) + cntE p obj + cntE p idx
  | .call callee args => p (.call callee args) + cntE p callee + cntEs p args
  | .assign lhs rhs => p (.assign lhs rhs) + cntE p lhs + cntE p rhs

def cntEs (p : JExpr → ℕ) : JExprs → ℕ
  | .nil => 0
  | .cons hd tl => cntE p hd + cntEs p tl

def cntEls (p : JExpr → ℕ) : JElems → ℕ
  | .nil => 0
  | .consSome hd tl => cntE p hd + cntEls p tl
  | .consNone tl => cntEls p tl

def cntOE (p : JExpr → ℕ) : JOExpr → ℕ
  | .none => 0
  | .some e => cntE p e

def cntS (p : JExpr → ℕ) : JStmt → ℕ
  | .exprStmt e => cntE p e
  | .varDecl decls => cntDs p decls
  | .block stmts => cntSs p stmts
  | .ifStmt test cons alt => cntE p test + cntS p cons + cntOS p alt
  | .forStmt finit test update body =>
    cntFI p finit + cntOE p test + cntOE p update + cntS p body
  | .funcDecl _ _ body => cntSs p body
  | .ret arg => cntOE p arg

def cntSs (p : JExpr → ℕ) : JStmts → ℕ
  | .nil => 0
  | .cons hd tl => cntS p hd + cntSs p tl

def cntOS (p : JExpr → ℕ) : JOStmt → ℕ
  | .none => 0
  | .some s => cntS p s

def cntDs (p : JExpr → ℕ) : JDecls → ℕ
  | .nil => 0
  | .cons _ finit tl => cntOE p finit + cntDs p tl

def cntFI (p : JExpr → ℕ) : JForInit → ℕ
  | .none => 0
  | .expr e => cntE p e
  | .decls ds => cntDs p ds

end

/-- Node contribution of `CountNumericLiterals` (`visit_lit` counting
`Lit::Num`). -/
def numLitP : JExpr → ℕ
  | .lit (.num _) => 1
  | _ => 0

/-- Node contribution of `CountBooleanLiterals`
(src/mutators/literals/boolean_flipper.rs:22-29). -/
def boolLitP : JExpr → ℕ
  | .lit (.bool _) => 1
  | _ => 0

/-- Node contribution of `CountArrayLiterals`
(src/mutators/literals/array_mutator.rs:26-31). -/
def arrayLitP : JExpr → ℕ
  | .array _ => 1
  | _ => 0

/-- Node contribution of `ExpressionCollector` (every expression). -/
def exprP : JExpr → ℕ := fun _ => 1

/-- Identifier references (spec-modelled `IdentSwapMutator` sites). -/
def identP : JExpr → ℕ
  | .ident _ => 1
  | _ => 0

/-- Member expressions whose object is a plain identifier — the sites
`RemovePropMutator`'s visitor counts (src/mutators/elements.rs:381-395). -/
def memberIdentBaseP : JExpr → ℕ
  | .memberNamed (.ident _) _ => 1
  | .memberComputed (.ident _) _ => 1
  | _ => 0

def countNumericLiterals (s : JScript) : ℕ := cntSs numLitP s.body
def countBooleanLiterals (s : JScript) : ℕ := cntSs boolLitP s.body
def countArrayLiterals (s : JScript) : ℕ := cntSs arrayLitP s.body
def countExprs (s : JScript) : ℕ := cntSs exprP s.body
def countIdents (s : JScript) : ℕ := cntSs identP s.body
def countMemberIdentBase (s : JScript) : ℕ := cntSs memberIdentBaseP s.body

/-! `CountOperators` (src/mutators/operators.rs:28-36) counts binary
expressions, but skips (and does not descend into) any binary expression
encountered while `in_for_stmt` is set; `for_stmt_visitor!` sets the flag
while walking a classical `for`'s init/test/update and clears it for the
body. -/

mutual

def cntOpsE (inFor : Bool) : JExpr → ℕ
  | .lit _ => 0
  | .ident _ => 0
  | .array elems => cntOpsEls inFor elems
  | .bin _ lhs rhs =>
    if inFor then 0 else 1 + cntOpsE inFor lhs + cntOpsE inFor rhs
  | .memberNamed obj _ => cntOpsE inFor obj
  | .memberComputed obj idx => cntOpsE inFor obj + cntOpsE inFor idx
  | .call callee args => cntOpsE inFor callee + cntOpsEs inFor args
  | .assign lhs rhs => cntOpsE inFor lhs + cntOpsE inFor rhs

def cntOpsEs (inFor : Bool) : JExprs → ℕ
  | .nil => 0
  | .cons hd tl => cntOpsE inFor hd + cntOpsEs inFor tl

def cntOpsEls (inFor : Bool) : JElems → ℕ
  | .nil => 0
  | .consSome hd tl => cntOpsE inFor hd + cntOpsEls inFor tl
  | .consNone tl => cntOpsEls inFor tl

def cntOpsOE (inFor : Bool) : JOExpr → ℕ
  | .none => 0
  | .some e => cntOpsE inFor e

def cntOpsS (inFor : Bool) : JStmt → ℕ
  | .exprStmt e => cntOpsE inFor e
  | .varDecl decls => cntOpsDs inFor decls
  | .block stmts => cntOpsSs inFor stmts
  | .ifStmt test cons alt =>
    cntOpsE inFor test + cntOpsS inFor cons + cntOpsOS inFor alt
  | .forStmt finit test update body =>
    cntOpsFI true finit + cntOpsOE true test + cntOpsOE true update +
      cntOpsS false body
  | .funcDecl _ _ body => cntOpsSs inFor body
  | .ret arg => cntOpsOE inFor arg

def cntOpsSs (inFor : Bool) : JStmts → ℕ
  | .nil => 0
  | .cons hd tl => cntOpsS inFor hd + cntOpsSs inFor tl

def cntOpsOS (inFor : Bool) : JOStmt → ℕ
  | .none => 0
  | .some s => cntOpsS inFor s

def cntOpsDs (inFor : Bool) : JDecls → ℕ
  | .nil => 0
  | .cons _ finit tl => cntOpsOE inFor finit + cntOpsDs inFor tl

def cntOpsFI (inFor : Bool) : JForInit → ℕ
  | .none => 0
  | .expr e => cntOpsE inFor e
  | .decls ds => cntOpsDs inFor ds

end

def countOperators (s : JScript) : ℕ := cntOpsSs false s.body

/-! ### The `NumericTweaker` mutation at the selected literal -/

namespace FVal

def neg : FVal → FVal
  | .nan => .nan
  | .inf b => .inf !b
  | .fin q => .fin (-q)

/-- Truncation towards zero on rationals. -/
def truncQ (q : ℚ) : ℤ := if 0 ≤ q then ⌊q⌋ else ⌈q⌉

/-- Mirrors `f64::trunc`. -/
def truncRust : FVal → FVal
  | .nan => .nan
  | .inf b => .inf b
  | .fin q => .fin (truncQ q)

end FVal

/-- Part of a classical `for` statement's header currently being visited
(the visitor's `in_for_stmt` tag). -/
inductive ForPart where
  | finit | test | update
deriving DecidableEq, Repr

/-- The weighted choice of the non-loop, non-index branch of
`visit_mut_lit` (src/mutators/literals/numeric_tweaker.rs:278-298),
with the random draws of each arm carried as payload.  The table omits
`"pow2"` (commented out) and `"turn_to_10k"` (an arm with no table entry),
so those arms are unreachable and not modelled; `"to_undefined"` and
`"to_null"` fall into the wildcard arm, which keeps the value (the source's
later `choice == "undefined"` test can never fire since the sampled keys
are `"to_undefined"`/`"to_null"`). -/
inductive PlainChoice where
  | smallDelta (integral : Bool) (d1 d2 : ℚ)
  | inc (step : ℤ)
  | dec (step : ℤ)
  | flipSign
  | toNan
  | toInfinity
  | toNegInfinity
  | toNegZero
  | toExtremeLarge (pick : Fin 3)
  | toExtremeSmall (pick : Fin 3)
  | randomFraction (q : ℚ)
  | truncateInt
  | scaleMult (half : Bool)
  | toUndefined
  | toNull

/-- The non-loop arm of `visit_mut_lit`
(src/mutators/literals/numeric_tweaker.rs:300-383). -/
def plainTweak (original : FVal) (c : PlainChoice) : FVal :=
  match c with
  | .smallDelta integral d1 d2 =>
    if integral then
      let delta : ℤ := max (-10) (min 10 (FVal.roundQ d1))
      original.add (.fin (delta : ℚ))
    else original.add (.fin d2)
  | .inc step => original.add (.fin (step : ℚ))
  | .dec step => original.add (.fin (-(step : ℚ)))
  | .flipSign => original.neg
  | .toNan => .nan
  | .toInfinity => .inf false
  | .toNegInfinity => .inf true
  | .toNegZero => .fin 0
  | .toExtremeLarge pick => .fin ((10 : ℚ) ^ ([100, 200, 308].get pick))
  | .toExtremeSmall pick => .fin ((10 : ℚ) ^ ([100, 200, 308].get pick))⁻¹
  | .randomFraction q => .fin q
  | .truncateInt => original.truncRust
  | .scaleMult half => original.mulPos (if half then 1 / 2 else 2)
  | .toUndefined => original
  | .toNull => original

/-- All random draws one `NumericTweakerVisitor` run may consume at the
selected literal. -/
structure TweakDecision where
  forTestMode : ForTestMode
  forTestStep : ℤ
  arrChoice : ArrayIdxChoice
  arrDelta : ℤ
  arrSmall : ℕ
  plain : PlainChoice

/-- The body of `visit_mut_lit` at the selected numeric literal
(src/mutators/literals/numeric_tweaker.rs:149-384): init/update loop-header
literals are left unchanged, test-clause literals go through the for-test
arm, computed-member indices through the array-index arm, and everything
else through the weighted plain arm. -/
def tweakLit (d : TweakDecision) (inFor : Option ForPart) (inArr : Bool)
    (v : FVal) : FVal :=
  match inFor with
  | some .finit => v
  | some .update => v
  | some .test => forTestTweak v d.forTestMode d.forTestStep
  | none =>
    if inArr then arrayIndexTweak v d.arrChoice d.arrDelta d.arrSmall
    else plainTweak v d.plain

/-! `NumericTweakerVisitor` traversal: threads the `crt_idx` counter over
numeric literals, the `in_for_stmt` tag (set on a classical `for`'s
init/test/update, cleared for its body) and the `in_array_index` flag (set
while inside a computed member's property expression, restored after). -/

mutual

def twkE (d : TweakDecision) (tgt : ℕ) (inFor : Option ForPart)
    (inArr : Bool) : JExpr → ℕ → JExpr × ℕ
  | .lit (.num v), c =>
    if c = tgt then (.lit (.num (tweakLit d inFor inArr v)), c + 1)
    else (.lit (.num v), c + 1)
  | .lit l, c => (.lit l, c)
  | .ident n, c => (.ident n, c)
  | .array elems, c =>
    let r := twkEls d tgt inFor inArr elems c
    (.array r.1, r.2)
  | .bin op lhs rhs, c =>
    let rl := twkE d tgt inFor inArr lhs c
    let rr := twkE d tgt inFor inArr rhs rl.2
    (.bin op rl.1 rr.1, rr.2)
  | .memberNamed obj pr, c =>
    let ro := twkE d tgt inFor inArr obj c
    (.memberNamed ro.1 pr, ro.2)
  | .memberComputed obj idx, c =>
    let ro := twkE d tgt inFor inArr obj c
    let ri := twkE d tgt inFor true idx ro.2
    (.memberComputed ro.1 ri.1, ri.2)
  | .call callee args, c =>
    let rc := twkE d tgt inFor inArr callee c
    let ra := twkEs d tgt inFor inArr args rc.2
    (.call rc.1 ra.1, ra.2)
  | .assign lhs rhs, c =>
    let rl := twkE d tgt inFor inArr lhs c
    let rr := twkE d tgt inFor inArr rhs rl.2
    (.assign rl.1 rr.1, rr.2)

def twkEs (d : TweakDecision) (tgt : ℕ) (inFor : Option ForPart)
    (inArr : Bool) : JExprs → ℕ → JExprs × ℕ
  | .nil, c => (.nil, c)
  | .cons hd tl, c =>
    let rh := twkE d tgt inFor inArr hd c
    let rt := twkEs d tgt inFor inArr tl rh.2
    (.cons rh.1 rt.1, rt.2)

def twkEls (d : TweakDecision) (tgt : ℕ) (inFor : Option ForPart)
    (inArr : Bool) : JElems → ℕ → JElems × ℕ
  | .nil, c => (.nil, c)
  | .consSome hd tl, c =>
    let rh := twkE d tgt inFor inArr hd c
    let rt := twkEls d tgt inFor inArr tl rh.2
    (.consSome rh.1 rt.1, rt.2)
  | .consNone tl, c =>
    let rt := twkEls d tgt inFor inArr tl c
    (.consNone rt.1, rt.2)

def twkOE (d : TweakDecision) (tgt : ℕ) (inFor : Option ForPart)
    (inArr : Bool) : JOExpr → ℕ → JOExpr × ℕ
  | .none, c => (.none, c)
  | .some e, c =>
    let r := twkE d tgt inFor inArr e c
    (.some r.1, r.2)

def twkS (d : TweakDecision) (tgt : ℕ) (inFor : Option ForPart)
    (inArr : Bool) : JStmt → ℕ → JStmt × ℕ
  | .exprStmt e, c =>
    let r := twkE d tgt inFor inArr e c
    (.exprStmt r.1, r.2)
  | .varDecl decls, c =>
    let r := twkDs d tgt inFor inArr decls c
    (.varDecl r.1, r.2)
  | .block stmts, c =>
    let r := twkSs d tgt inFor inArr stmts c
    (.block r.1, r.2)
  | .ifStmt test cons alt, c =>
    let rt := twkE d tgt inFor inArr test c
    let rc := twkS d tgt inFor inArr cons rt.2
    let ra := twkOS d tgt inFor inArr alt rc.2
    (.ifStmt rt.1 rc.1 ra.1, ra.2)
  | .forStmt finit test update body, c =>
    let ri := twkFI d tgt (some .finit) inArr finit c
    let rt := twkOE d tgt (some .test) inArr test ri.2
    let ru := twkOE d tgt (some .update) inArr update rt.2
    let rb := twkS d tgt Option.none inArr body ru.2
    (.forStmt ri.1 rt.1 ru.1 rb.1, rb.2)
  | .funcDecl name params body, c =>
    let r := twkSs d tgt inFor inArr body c
    (.funcDecl name params r.1, r.2)
  | .ret arg, c =>
    let r := twkOE d tgt inFor inArr arg c
    (.ret r.1, r.2)

def twkSs (d : TweakDecision) (tgt : ℕ) (inFor : Option ForPart)
    (inArr : Bool) : JStmts → ℕ → JStmts × ℕ
  | .nil, c => (.nil, c)
  | .cons hd tl, c =>
    let rh := twkS d tgt inFor inArr hd c
    let rt := twkSs d tgt inFor inArr tl rh.2
    (.cons rh.1 rt.1, rt.2)

def twkOS (d : TweakDecision) (tgt : ℕ) (inFor : Option ForPart)
    (inArr : Bool) : JOStmt → ℕ → JOStmt × ℕ
  | .none, c => (.none, c)
  | .some s, c =>
    let r := twkS d tgt inFor inArr s c
    (.some r.1, r.2)

def twkDs (d : TweakDecision) (tgt : ℕ) (inFor : Option ForPart)
    (inArr : Bool) : JDecls → ℕ → JDecls × ℕ
  | .nil, c => (.nil, c)
  | .cons name finit tl, c =>
    let ri := twkOE d tgt inFor inArr finit c
    let rt := twkDs d tgt inFor inArr tl ri.2
    (.cons name ri.1 rt.1, rt.2)

def twkFI (d : TweakDecision) (tgt : ℕ) (inFor : Option ForPart)
    (inArr : Bool) : JForInit → ℕ → JForInit × ℕ
  | .none, c => (.none, c)
  | .expr e, c =>
    let r := twkE d tgt inFor inArr e c
    (.expr r.1, r.2)
  | .decls ds, c =>
    let r := twkDs d tgt inFor inArr ds c
    (.decls r.1, r.2)

end

/-! `BooleanFlipperVisitor` traversal: flip the boolean literal whose
traversal index equals the drawn target
(src/mutators/literals/boolean_flipper.rs:31-45). -/

mutual

def flipE (tgt : ℕ) : JExpr → ℕ → JExpr × ℕ
  | .lit (.bool b), c =>
    if c = tgt then (.lit (.bool !b), c + 1) else (.lit (.bool b), c + 1)
  | .lit l, c => (.lit l, c)
  | .ident n, c => (.ident n, c)
  | .array elems, c =>
    let r := flipEls tgt elems c
    (.array r.1, r.2)
  | .bin op lhs rhs, c =>
    let rl := flipE tgt lhs c
    let rr := flipE tgt rhs rl.2
    (.bin op rl.1 rr.1, rr.2)
  | .memberNamed obj pr, c =>
    let ro := flipE tgt obj c
    (.memberNamed ro.1 pr, ro.2)
  | .memberComputed obj idx, c =>
    let ro := flipE tgt obj c
    let ri := flipE tgt idx ro.2
    (.memberComputed ro.1 ri.1, ri.2)
  | .call callee args, c =>
    let rc := flipE tgt callee c
    let ra := flipEs tgt args rc.2
    (.call rc.1 ra.1, ra.2)
  | .assign lhs rhs, c =>
    let rl := flipE tgt lhs c
    let rr := flipE tgt rhs rl.2
    (.assign rl.1 rr.1, rr.2)

def flipEs (tgt : ℕ) : JExprs → ℕ → JExprs × ℕ
  | .nil, c => (.nil, c)
  | .cons hd tl, c =>
    let rh := flipE tgt hd c
    let rt := flipEs tgt tl rh.2
    (.cons rh.1 rt.1, rt.2)

def flipEls (tgt : ℕ) : JElems → ℕ → JElems × ℕ
  | .nil, c => (.nil, c)
  | .consSome hd tl, c =>
    let rh := flipE tgt hd c
    let rt := flipEls tgt tl rh.2
    (.consSome rh.1 rt.1, rt.2)
  | .consNone tl, c =>
    let rt := flipEls tgt tl c
    (.consNone rt.1, rt.2)

def flipOE (tgt : ℕ) : JOExpr → ℕ → JOExpr × ℕ
  | .none, c => (.none, c)
  | .some e, c =>
    let r := flipE tgt e c
    (.some r.1, r.2)

def flipS (tgt : ℕ) : JStmt → ℕ → JStmt × ℕ
  | .exprStmt e, c =>
    let r := flipE tgt e c
    (.exprStmt r.1, r.2)
  | .varDecl decls, c =>
    let r := flipDs tgt decls c
    (.varDecl r.1, r.2)
  | .block stmts, c =>
    let r := flipSs tgt stmts c
    (.block r.1, r.2)
  | .ifStmt test cons alt, c =>
    let rt := flipE tgt test c
    let rc := flipS tgt cons rt.2
    let ra := flipOS tgt alt rc.2
    (.ifStmt rt.1 rc.1 ra.1, ra.2)
  | .forStmt finit test update body, c =>
    let ri := flipFI tgt finit c
    let rt := flipOE tgt test ri.2
    let ru := flipOE tgt update rt.2
    let rb := flipS tgt body ru.2
    (.forStmt ri.1 rt.1 ru.1 rb.1, rb.2)
  | .funcDecl name params body, c =>
    let r := flipSs tgt body c
    (.funcDecl name params r.1, r.2)
  | .ret arg, c =>
    let r := flipOE tgt arg c
    (.ret r.1, r.2)

def flipSs (tgt : ℕ) : JStmts → ℕ → JStmts × ℕ
  | .nil, c => (.nil, c)
  | .cons hd tl, c =>
    let rh := flipS tgt hd c
    let rt := flipSs tgt tl rh.2
    (.cons rh.1 rt.1, rt.2)

def flipOS (tgt : ℕ) : JOStmt → ℕ → JOStmt × ℕ
  | .none, c => (.none, c)
  | .some s, c =>
    let r := flipS tgt s c
    (.some r.1, r.2)

def flipDs (tgt : ℕ) : JDecls → ℕ → JDecls × ℕ
  | .nil, c => (.nil, c)
  | .cons name finit tl, c =>
    let ri := flipOE tgt finit c
    let rt := flipDs tgt tl ri.2
    (.cons name ri.1 rt.1, rt.2)

def flipFI (tgt : ℕ) : JForInit → ℕ → JForInit × ℕ
  | .none, c => (.none, c)
  | .expr e, c =>
    let r := flipE tgt e c
    (.expr r.1, r.2)
  | .decls ds, c =>
    let r := flipDs tgt ds c
    (.decls r.1, r.2)

end

/-! ### `ArrayMutator` (src/mutators/literals/array_mutator.rs)

The visitor mutates the array literal whose post-order index matches the
drawn target: with probability 1/2 it grows the literal by `1..=5`
elements of a type drawn from a weighted table, otherwise it truncates it
to a random shorter length.  The random draws (including the per-element
values and the identifiers collected from the surrounding scope for the
`"context_obj"` arm) are carried in `ArrayDecision`. -/

inductive ArrayFill where
  | smi (vals : ℕ → ℤ)
  | float (vals : ℕ → ℚ)
  | nanFill
  | undefinedIdent
  | contextObj (objList : List String) (pick : ℕ → ℕ)
  | other

structure ArrayDecision where
  grow : Bool
  growBy : ℕ
  shrinkTo : ℕ
  fill : ArrayFill

def JElems.length : JElems → ℕ
  | .nil => 0
  | .consSome _ tl => tl.length + 1
  | .consNone tl => tl.length + 1

/-- Mirrors `Vec::truncate`. -/
def JElems.take : ℕ → JElems → JElems
  | 0, _ => .nil
  | _, .nil => .nil
  | n + 1, .consSome hd tl => .consSome hd (JElems.take n tl)
  | n + 1, .consNone tl => .consNone (JElems.take n tl)

def JElems.appendExprs : JElems → List JExpr → JElems
  | .nil, [] => .nil
  | .nil, e :: rest => .consSome e (JElems.appendExprs .nil rest)
  | .consSome hd tl, es => .consSome hd (tl.appendExprs es)
  | .consNone tl, es => .consNone (tl.appendExprs es)

/-- The element pushed for the i-th added slot
(src/mutators/literals/array_mutator.rs:82-166); the `"bigint"`, `"null"`,
`"boolean"` and `"objects"` table keys have no dedicated arm and fall into
the default one, which pushes `undefined` identifiers. -/
def fillElem (fill : ArrayFill) (i : ℕ) : JExpr :=
  match fill with
  | .smi vals => .lit (.num (.fin (vals i)))
  | .float vals => .lit (.num (.fin (vals i)))
  | .nanFill => .lit (.num .nan)
  | .undefinedIdent => .ident ("undefined")
  | .contextObj objList pick => .ident (objList.getD (pick i) ("undefined"))
  | .other => .ident ("undefined")

/-- Mirrors `visit_mut_array_lit`'s action at the selected array literal
(src/mutators/literals/array_mutator.rs:51-169).  The `"context_obj"` arm
returns early, leaving the node unchanged, when no identifier is in
scope. -/
def mutateArrayNode (d : ArrayDecision) (elems : JElems) : JElems :=
  let original_len := elems.length
  let new_len :=
    if d.grow then original_len + d.growBy
    else if original_len = 0 then 0
    else d.shrinkTo
  if original_len < new_len then
    match d.fill with
    | .contextObj objList _ =>
      if objList.isEmpty then elems
      else elems.appendExprs ((List.range (new_len - original_len)).map
        (fillElem d.fill))
    | _ =>
      elems.appendExprs ((List.range (new_len - original_len)).map
        (fillElem d.fill))
  else if new_len < original_len then JElems.take new_len elems
  else elems

mutual

def arrE (d : ArrayDecision) (tgt : ℕ) : JExpr → ℕ → JExpr × ℕ
  | .lit l, c => (.lit l, c)
  | .ident n, c => (.ident n, c)
  | .array elems, c =>
    let r := arrEls d tgt elems c
    if r.2 = tgt then (.array (mutateArrayNode d r.1), r.2 + 1)
    else (.array r.1, r.2 + 1)
  | .bin op lhs rhs, c =>
    let rl := arrE d tgt lhs c
    let rr := arrE d tgt rhs rl.2
    (.bin op rl.1 rr.1, rr.2)
  | .memberNamed obj pr, c =>
    let ro := arrE d tgt obj c
    (.memberNamed ro.1 pr, ro.2)
  | .memberComputed obj idx, c =>
    let ro := arrE d tgt obj c
    let ri := arrE d tgt idx ro.2
    (.memberComputed ro.1 ri.1, ri.2)
  | .call callee args, c =>
    let rc := arrE d tgt callee c
    let ra := arrEs d tgt args rc.2
    (.call rc.1 ra.1, ra.2)
  | .assign lhs rhs, c =>
    let rl := arrE d tgt lhs c
    let rr := arrE d tgt rhs rl.2
    (.assign rl.1 rr.1, rr.2)

def arrEs (d : ArrayDecision) (tgt : ℕ) : JExprs → ℕ → JExprs × ℕ
  | .nil, c => (.nil, c)
  | .cons hd tl, c =>
    let rh := arrE d tgt hd c
    let rt := arrEs d tgt tl rh.2
    (.cons rh.1 rt.1, rt.2)

def arrEls (d : ArrayDecision) (tgt : ℕ) : JElems → ℕ → JElems × ℕ
  | .nil, c => (.nil, c)
  | .consSome hd tl, c =>
    let rh := arrE d tgt hd c
    let rt := arrEls d tgt tl rh.2
    (.consSome rh.1 rt.1, rt.2)
  | .consNone tl, c =>
    let rt := arrEls d tgt tl c
    (.consNone rt.1, rt.2)

def arrOE (d : ArrayDecision) (tgt : ℕ) : JOExpr → ℕ → JOExpr × ℕ
  | .none, c => (.none, c)
  | .some e, c =>
    let r := arrE d tgt e c
    (.some r.1, r.2)

def arrS (d : ArrayDecision) (tgt : ℕ) : JStmt → ℕ → JStmt × ℕ
  | .exprStmt e, c =>
    let r := arrE d tgt e c
    (.exprStmt r.1, r.2)
  | .varDecl decls, c =>
    let r := arrDs d tgt decls c
    (.varDecl r.1, r.2)
  | .block stmts, c =>
    let r := arrSs d tgt stmts c
    (.block r.1, r.2)
  | .ifStmt test cons alt, c =>
    let rt := arrE d tgt test c
    let rc := arrS d tgt cons rt.2
    let ra := arrOS d tgt alt rc.2
    (.ifStmt rt.1 rc.1 ra.1, ra.2)
  | .forStmt finit test update body, c =>
    let ri := arrFI d tgt finit c
    let rt := arrOE d tgt test ri.2
    let ru := arrOE d tgt update rt.2
    let rb := arrS d tgt body ru.2
    (.forStmt ri.1 rt.1 ru.1 rb.1, rb.2)
  | .funcDecl name params body, c =>
    let r := arrSs d tgt body c
    (.funcDecl name params r.1, r.2)
  | .ret arg, c =>
    let r := arrOE d tgt arg c
    (.ret r.1, r.2)

def arrSs (d : ArrayDecision) (tgt : ℕ) : JStmts → ℕ → JStmts × ℕ
  | .nil, c => (.nil, c)
  | .cons hd tl, c =>
    let rh := arrS d tgt hd c
    let rt := arrSs d tgt tl rh.2
    (.cons rh.1 rt.1, rt.2)

def arrOS (d : ArrayDecision) (tgt : ℕ) : JOStmt → ℕ → JOStmt × ℕ
  | .none, c => (.none, c)
  | .some s, c =>
    let r := arrS d tgt s c
    (.some r.1, r.2)

def arrDs (d : ArrayDecision) (tgt : ℕ) : JDecls → ℕ → JDecls × ℕ
  | .nil, c => (.nil, c)
  | .cons name finit tl, c =>
    let ri := arrOE d tgt finit c
    let rt := arrDs d tgt tl ri.2
    (.cons name ri.1 rt.1, rt.2)

def arrFI (d : ArrayDecision) (tgt : ℕ) : JForInit → ℕ → JForInit × ℕ
  | .none, c => (.none, c)
  | .expr e, c =>
    let r := arrE d tgt e c
    (.expr r.1, r.2)
  | .decls ds, c =>
    let r := arrDs d tgt ds c
    (.decls r.1, r.2)

end

/-! ### `OperatorSwap` (src/mutators/operators.rs)

`visit_mut_bin_expr` visits children first, skips binary expressions inside
a `for` header without counting them, and at the drawn index replaces the
operator (the in-group or cross-group draw is carried as `newOp`). -/

mutual

def opsE (newOp : BinOp) (tgt : ℕ) (inFor : Bool) :
    JExpr → ℕ → JExpr × ℕ
  | .lit l, c => (.lit l, c)
  | .ident n, c => (.ident n, c)
  | .array elems, c =>
    let r := opsEls newOp tgt inFor elems c
    (.array r.1, r.2)
  | .bin op lhs rhs, c =>
    let rl := opsE newOp tgt inFor lhs c
    let rr := opsE newOp tgt inFor rhs rl.2
    if inFor then (.bin op rl.1 rr.1, rr.2)
    else if rr.2 = tgt then (.bin newOp rl.1 rr.1, rr.2 + 1)
    else (.bin op rl.1 rr.1, rr.2 + 1)
  | .memberNamed obj pr, c =>
    let ro := opsE newOp tgt inFor obj c
    (.memberNamed ro.1 pr, ro.2)
  | .memberComputed obj idx, c =>
    let ro := opsE newOp tgt inFor obj c
    let ri := opsE newOp tgt inFor idx ro.2
    (.memberComputed ro.1 ri.1, ri.2)
  | .call callee args, c =>
    let rc := opsE newOp tgt inFor callee c
    let ra := opsEs newOp tgt inFor args rc.2
    (.call rc.1 ra.1, ra.2)
  | .assign lhs rhs, c =>
    let rl := opsE newOp tgt inFor lhs c
    let rr := opsE newOp tgt inFor rhs rl.2
    (.assign rl.1 rr.1, rr.2)

def opsEs (newOp : BinOp) (tgt : ℕ) (inFor : Bool) :
    JExprs → ℕ → JExprs × ℕ
  | .nil, c => (.nil, c)
  | .cons hd tl, c =>
    let rh := opsE newOp tgt inFor hd c
    let rt := opsEs newOp tgt inFor tl rh.2
    (.cons rh.1 rt.1, rt.2)

def opsEls (newOp : BinOp) (tgt : ℕ) (inFor : Bool) :
    JElems → ℕ → JElems × ℕ
  | .nil, c => (.nil, c)
  | .consSome hd tl, c =>
    let rh := opsE newOp tgt inFor hd c
    let rt := opsEls newOp tgt inFor tl rh.2
    (.consSome rh.1 rt.1, rt.2)
  | .consNone tl, c =>
    let rt := opsEls newOp tgt inFor tl c
    (.consNone rt.1, rt.2)

def opsOE (newOp : BinOp) (tgt : ℕ) (inFor : Bool) :
    JOExpr → ℕ → JOExpr × ℕ
  | .none, c => (.none, c)
  | .some e, c =>
    let r := opsE newOp tgt inFor e c
    (.some r.1, r.2)

def opsS (newOp : BinOp) (tgt : ℕ) (inFor : Bool) :
    JStmt → ℕ → JStmt × ℕ
  | .exprStmt e, c =>
    let r := opsE newOp tgt inFor e c
    (.exprStmt r.1, r.2)
  | .varDecl decls, c =>
    let r := opsDs newOp tgt inFor decls c
    (.varDecl r.1, r.2)
  | .block stmts, c =>
    let r := opsSs newOp tgt inFor stmts c
    (.block r.1, r.2)
  | .ifStmt test cons alt, c =>
    let rt := opsE newOp tgt inFor test c
    let rc := opsS newOp tgt inFor cons rt.2
    let ra := opsOS newOp tgt inFor alt rc.2
    (.ifStmt rt.1 rc.1 ra.1, ra.2)
  | .forStmt finit test update body, c =>
    let ri := opsFI newOp tgt true finit c
    let rt := opsOE newOp tgt true test ri.2
    let ru := opsOE newOp tgt true update rt.2
    let rb := opsS newOp tgt false body ru.2
    (.forStmt ri.1 rt.1 ru.1 rb.1, rb.2)
  | .funcDecl name params body, c =>
    let r := opsSs newOp tgt inFor body c
    (.funcDecl name params r.1, r.2)
  | .ret arg, c =>
    let r := opsOE newOp tgt inFor arg c
    (.ret r.1, r.2)

def opsSs (newOp : BinOp) (tgt : ℕ) (inFor : Bool) :
    JStmts → ℕ → JStmts × ℕ
  | .nil, c => (.nil, c)
  | .cons hd tl, c =>
    let rh := opsS newOp tgt inFor hd c
    let rt := opsSs newOp tgt inFor tl rh.2
    (.cons rh.1 rt.1, rt.2)

def opsOS (newOp : BinOp) (tgt : ℕ) (inFor : Bool) :
    JOStmt → ℕ → JOStmt × ℕ
  | .none, c => (.none, c)
  | .some s, c =>
    let r := opsS newOp tgt inFor s c
    (.some r.1, r.2)

def opsDs (newOp : BinOp) (tgt : ℕ) (inFor : Bool) :
    JDecls → ℕ → JDecls × ℕ
  | .nil, c => (.nil, c)
  | .cons name finit tl, c =>
    let ri := opsOE newOp tgt inFor finit c
    let rt := opsDs newOp tgt inFor tl ri.2
    (.cons name ri.1 rt.1, rt.2)

def opsFI (newOp : BinOp) (tgt : ℕ) (inFor : Bool) :
    JForInit → ℕ → JForInit × ℕ
  | .none, c => (.none, c)
  | .expr e, c =>
    let r := opsE newOp tgt inFor e c
    (.expr r.1, r.2)
  | .decls ds, c =>
    let r := opsDs newOp tgt inFor ds c
    (.decls r.1, r.2)

end

/-! ### `RemovePropMutator` (src/mutators/elements.rs:372-417)

The removal pass walks expressions pre-order; at a member expression whose
object is a plain identifier it increments the counter and, when the
counter equals the drawn index, replaces the whole member expression by its
base identifier and skips the subtree.  The comparison `counter ==
idx_to_remove` happens after the increment while `idx_to_remove` is drawn
from `0..count`, so the counter is effectively 1-based against a 0-based
draw (index 0 never matches). -/

mutual

def rmpE (tgt : ℕ) : JExpr → ℕ → JExpr × ℕ
  | .memberNamed (.ident n) pr, c =>
    if c + 1 = tgt then (.ident n, c + 1)
    else (.memberNamed (.ident n) pr, c + 1)
  | .memberComputed (.ident n) idx, c =>
    if c + 1 = tgt then (.ident n, c + 1)
    else
      let ri := rmpE tgt idx (c + 1)
      (.memberComputed (.ident n) ri.1, ri.2)
  | .lit l, c => (.lit l, c)
  | .ident n, c => (.ident n, c)
  | .array elems, c =>
    let r := rmpEls tgt elems c
    (.array r.1, r.2)
  | .bin op lhs rhs, c =>
    let rl := rmpE tgt lhs c
    let rr := rmpE tgt rhs rl.2
    (.bin op rl.1 rr.1, rr.2)
  | .memberNamed obj pr, c =>
    let ro := rmpE tgt obj c
    (.memberNamed ro.1 pr, ro.2)
  | .memberComputed obj idx, c =>
    let ro := rmpE tgt obj c
    let ri := rmpE tgt idx ro.2
    (.memberComputed ro.1 ri.1, ri.2)
  | .call callee args, c =>
    let rc := rmpE tgt callee c
    let ra := rmpEs tgt args rc.2
    (.call rc.1 ra.1, ra.2)
  | .assign lhs rhs, c =>
    let rl := rmpE tgt lhs c
    let rr := rmpE tgt rhs rl.2
    (.assign rl.1 rr.1, rr.2)

def rmpEs (tgt : ℕ) : JExprs → ℕ → JExprs × ℕ
  | .nil, c => (.nil, c)
  | .cons hd tl, c =>
    let rh := rmpE tgt hd c
    let rt := rmpEs tgt tl rh.2
    (.cons rh.1 rt.1, rt.2)

def rmpEls (tgt : ℕ) : JElems → ℕ → JElems × ℕ
  | .nil, c => (.nil, c)
  | .consSome hd tl, c =>
    let rh := rmpE tgt hd c
    let rt := rmpEls tgt tl rh.2
    (.consSome rh.1 rt.1, rt.2)
  | .consNone tl, c =>
    let rt := rmpEls tgt tl c
    (.consNone rt.1, rt.2)

def rmpOE (tgt : ℕ) : JOExpr → ℕ → JOExpr × ℕ
  | .none, c => (.none, c)
  | .some e, c =>
    let r := rmpE tgt e c
    (.some r.1, r.2)

def rmpS (tgt : ℕ) : JStmt → ℕ → JStmt × ℕ
  | .exprStmt e, c =>
    let r := rmpE tgt e c
    (.exprStmt r.1, r.2)
  | .varDecl decls, c =>
    let r := rmpDs tgt decls c
    (.varDecl r.1, r.2)
  | .block stmts, c =>
    let r := rmpSs tgt stmts c
    (.block r.1, r.2)
  | .ifStmt test cons alt, c =>
    let rt := rmpE tgt test c
    let rc := rmpS tgt cons rt.2
    let ra := rmpOS tgt alt rc.2
    (.ifStmt rt.1 rc.1 ra.1, ra.2)
  | .forStmt finit test update body, c =>
    let ri := rmpFI tgt finit c
    let rt := rmpOE tgt test ri.2
    let ru := rmpOE tgt update rt.2
    let rb := rmpS tgt body ru.2
    (.forStmt ri.1 rt.1 ru.1 rb.1, rb.2)
  | .funcDecl name params body, c =>
    let r := rmpSs tgt body c
    (.funcDecl name params r.1, r.2)
  | .ret arg, c =>
    let r := rmpOE tgt arg c
    (.ret r.1, r.2)

def rmpSs (tgt : ℕ) : JStmts → ℕ → JStmts × ℕ
  | .nil, c => (.nil, c)
  | .cons hd tl, c =>
    let rh := rmpS tgt hd c
    let rt := rmpSs tgt tl rh.2
    (.cons rh.1 rt.1, rt.2)

def rmpOS (tgt : ℕ) : JOStmt → ℕ → JOStmt × ℕ
  | .none, c => (.none, c)
  | .some s, c =>
    let r := rmpS tgt s c
    (.some r.1, r.2)

def rmpDs (tgt : ℕ) : JDecls → ℕ → JDecls × ℕ
  | .nil, c => (.nil, c)
  | .cons name finit tl, c =>
    let ri := rmpOE tgt finit c
    let rt := rmpDs tgt tl ri.2
    (.cons name ri.1 rt.1, rt.2)

def rmpFI (tgt : ℕ) : JForInit → ℕ → JForInit × ℕ
  | .none, c => (.none, c)
  | .expr e, c =>
    let r := rmpE tgt e c
    (.expr r.1, r.2)
  | .decls ds, c =>
    let r := rmpDs tgt ds c
    (.decls r.1, r.2)

end

/-! ### `ExpressionSwapDup` and `IdentSwapMutator`

Modelled from the spec: both are registered in the catalogue
(src/mutators/mod.rs:135-154) but the source file defining them is not
present under src/ (the `expressions.rs` in the tree holds older
`ExpressionSwap`/`ExpressionDup` variants).  Per spec §4.7,
`ExpressionSwapDup` either *swaps* two distinct expressions by sequential
index or *duplicates* by replacing the expression at an index with one
drawn from the in-scope pool, and `IdentSwapMutator` swaps one identifier
reference; all mutators return the input unchanged when no applicable site
exists. -/

def optOr (a b : Option JExpr) : Option JExpr :=
  match a with
  | Option.some x => Option.some x
  | Option.none => b

mutual

def getE (tgt : ℕ) : JExpr → ℕ → Option JExpr × ℕ
  | e, c =>
    let hit : Option JExpr := if c = tgt then Option.some e else Option.none
    match e with
    | .lit _ => (hit, c + 1)
    | .ident _ => (hit, c + 1)
    | .array elems =>
      let r := getEls tgt elems (c + 1)
      (optOr hit r.1, r.2)
    | .bin _ lhs rhs =>
      let rl := getE tgt lhs (c + 1)
      let rr := getE tgt rhs rl.2
      (optOr hit (optOr rl.1 rr.1), rr.2)
    | .memberNamed obj _ =>
      let ro := getE tgt obj (c + 1)
      (optOr hit ro.1, ro.2)
    | .memberComputed obj idx =>
      let ro := getE tgt obj (c + 1)
      let ri := getE tgt idx ro.2
      (optOr hit (optOr ro.1 ri.1), ri.2)
    | .call callee args =>
      let rc := getE tgt callee (c + 1)
      let ra := getEs tgt args rc.2
      (optOr hit (optOr rc.1 ra.1), ra.2)
    | .assign lhs rhs =>
      let rl := getE tgt lhs (c + 1)
      let rr := getE tgt rhs rl.2
      (optOr hit (optOr rl.1 rr.1), rr.2)

def getEs (tgt : ℕ) : JExprs → ℕ → Option JExpr × ℕ
  | .nil, c => (Option.none, c)
  | .cons hd tl, c =>
    let rh := getE tgt hd c
    let rt := getEs tgt tl rh.2
    (optOr rh.1 rt.1, rt.2)

def getEls (tgt : ℕ) : JElems → ℕ → Option JExpr × ℕ
  | .nil, c => (Option.none, c)
  | .consSome hd tl, c =>
    let rh := getE tgt hd c
    let rt := getEls tgt tl rh.2
    (optOr rh.1 rt.1, rt.2)
  | .consNone tl, c => getEls tgt tl c

def getOE (tgt : ℕ) : JOExpr → ℕ → Option JExpr × ℕ
  | .none, c => (Option.none, c)
  | .some e, c => getE tgt e c

def getS (tgt : ℕ) : JStmt → ℕ → Option JExpr × ℕ
  | .exprStmt e, c => getE tgt e c
  | .varDecl decls, c => getDs tgt decls c
  | .block stmts, c => getSs tgt stmts c
  | .ifStmt test cons alt, c =>
    let rt := getE tgt test c
    let rc := getS tgt cons rt.2
    let ra := getOS tgt alt rc.2
    (optOr rt.1 (optOr rc.1 ra.1), ra.2)
  | .forStmt finit test update body, c =>
    let ri := getFI tgt finit c
    let rt := getOE tgt test ri.2
    let ru := getOE tgt update rt.2
    let rb := getS tgt body ru.2
    (optOr ri.1 (optOr rt.1 (optOr ru.1 rb.1)), rb.2)
  | .funcDecl _ _ body, c => getSs tgt body c
  | .ret arg, c => getOE tgt arg c

def getSs (tgt : ℕ) : JStmts → ℕ → Option JExpr × ℕ
  | .nil, c => (Option.none, c)
  | .cons hd tl, c =>
    let rh := getS tgt hd c
    let rt := getSs tgt tl rh.2
    (optOr rh.1 rt.1, rt.2)

def getOS (tgt : ℕ) : JOStmt → ℕ → Option JExpr × ℕ
  | .none, c => (Option.none, c)
  | .some s, c => getS tgt s c

def getDs (tgt : ℕ) : JDecls → ℕ → Option JExpr × ℕ
  | .nil, c => (Option.none, c)
  | .cons _ finit tl, c =>
    let ri := getOE tgt finit c
    let rt := getDs tgt tl ri.2
    (optOr ri.1 rt.1, rt.2)

def getFI (tgt : ℕ) : JForInit → ℕ → Option JExpr × ℕ
  | .none, c => (Option.none, c)
  | .expr e, c => getE tgt e c
  | .decls ds, c => getDs tgt ds c

end

/-- The expression at pre-order index `tgt` of the script. -/
def getExprAt (s : JScript) (tgt : ℕ) : Option JExpr :=
  (getSs tgt s.body 0).1

/-- Number of expression nodes in one expression subtree. -/
def exprSize (e : JExpr) : ℕ := cntE exprP e

mutual

def sbE (i j : ℕ) (ei ej : JExpr) : JExpr → ℕ → JExpr × ℕ
  | e, c =>
    if c = i then (ej, c + exprSize e)
    else if c = j then (ei, c + exprSize e)
    else
      match e with
      | .lit l => (.lit l, c + 1)
      | .ident n => (.ident n, c + 1)
      | .array elems =>
        let r := sbEls i j ei ej elems (c + 1)
        (.array r.1, r.2)
      | .bin op lhs rhs =>
        let rl := sbE i j ei ej lhs (c + 1)
        let rr := sbE i j ei ej rhs rl.2
        (.bin op rl.1 rr.1, rr.2)
      | .memberNamed obj pr =>
        let ro := sbE i j ei ej obj (c + 1)
        (.memberNamed ro.1 pr, ro.2)
      | .memberComputed obj idx =>
        let ro := sbE i j ei ej obj (c + 1)
        let ri := sbE i j ei ej idx ro.2
        (.memberComputed ro.1 ri.1, ri.2)
      | .call callee args =>
        let rc := sbE i j ei ej callee (c + 1)
        let ra := sbEs i j ei ej args rc.2
        (.call rc.1 ra.1, ra.2)
      | .assign lhs rhs =>
        let rl := sbE i j ei ej lhs (c + 1)
        let rr := sbE i j ei ej rhs rl.2
        (.assign rl.1 rr.1, rr.2)

def sbEs (i j : ℕ) (ei ej : JExpr) : JExprs → ℕ → JExprs × ℕ
  | .nil, c => (.nil, c)
  | .cons hd tl, c =>
    let rh := sbE i j ei ej hd c
    let rt := sbEs i j ei ej tl rh.2
    (.cons rh.1 rt.1, rt.2)

def sbEls (i j : ℕ) (ei ej : JExpr) : JElems → ℕ → JElems × ℕ
  | .nil, c => (.nil, c)
  | .consSome hd tl, c =>
    let rh := sbE i j ei ej hd c
    let rt := sbEls i j ei ej tl rh.2
    (.consSome rh.1 rt.1, rt.2)
  | .consNone tl, c =>
    let rt := sbEls i j ei ej tl c
    (.consNone rt.1, rt.2)

def sbOE (i j : ℕ) (ei ej : JExpr) : JOExpr → ℕ → JOExpr × ℕ
  | .none, c => (.none, c)
  | .some e, c =>
    let r := sbE i j ei ej e c
    (.some r.1, r.2)

def sbS (i j : ℕ) (ei ej : JExpr) : JStmt → ℕ → JStmt × ℕ
  | .exprStmt e, c =>
    let r := sbE i j ei ej e c
    (.exprStmt r.1, r.2)
  | .varDecl decls, c =>
    let r := sbDs i j ei ej decls c
    (.varDecl r.1, r.2)
  | .block stmts, c =>
    let r := sbSs i j ei ej stmts c
    (.block r.1, r.2)
  | .ifStmt test cons alt, c =>
    let rt := sbE i j ei ej test c
    let rc := sbS i j ei ej cons rt.2
    let ra := sbOS i j ei ej alt rc.2
    (.ifStmt rt.1 rc.1 ra.1, ra.2)
  | .forStmt finit test update body, c =>
    let ri := sbFI i j ei ej finit c
    let rt := sbOE i j ei ej test ri.2
    let ru := sbOE i j ei ej update rt.2
    let rb := sbS i j ei ej body ru.2
    (.forStmt ri.1 rt.1 ru.1 rb.1, rb.2)
  | .funcDecl name params body, c =>
    let r := sbSs i j ei ej body c
    (.funcDecl name params r.1, r.2)
  | .ret arg, c =>
    let r := sbOE i j ei ej arg c
    (.ret r.1, r.2)

def sbSs (i j : ℕ) (ei ej : JExpr) : JStmts → ℕ → JStmts × ℕ
  | .nil, c => (.nil, c)
  | .cons hd tl, c =>
    let rh := sbS i j ei ej hd c
    let rt := sbSs i j ei ej tl rh.2
    (.cons rh.1 rt.1, rt.2)

def sbOS (i j : ℕ) (ei ej : JExpr) : JOStmt → ℕ → JOStmt × ℕ
  | .none, c => (.none, c)
  | .some s, c =>
    let r := sbS i j ei ej s c
    (.some r.1, r.2)

def sbDs (i j : ℕ) (ei ej : JExpr) : JDecls → ℕ → JDecls × ℕ
  | .nil, c => (.nil, c)
  | .cons name finit tl, c =>
    let ri := sbOE i j ei ej finit c
    let rt := sbDs i j ei ej tl ri.2
    (.cons name ri.1 rt.1, rt.2)

def sbFI (i j : ℕ) (ei ej : JExpr) : JForInit → ℕ → JForInit × ℕ
  | .none, c => (.none, c)
  | .expr e, c =>
    let r := sbE i j ei ej e c
    (.expr r.1, r.2)
  | .decls ds, c =>
    let r := sbDs i j ei ej ds c
    (.decls r.1, r.2)

end

/-- Exchange the expressions at pre-order indices `i` and `j`. -/
def swapExprsAt (s : JScript) (i j : ℕ) : JScript :=
  match getExprAt s i, getExprAt s j with
  | Option.some ei, Option.some ej => ⟨(sbSs i j ei ej s.body 0).1⟩
  | _, _ => s

/-- Replace the expression at pre-order index `i` with `repl` (the dup
mode's in-scope draw). -/
def dupExprAt (s : JScript) (i : ℕ) (repl : JExpr) : JScript :=
  ⟨(sbSs i i repl repl s.body 0).1⟩

/-! Identifier-reference swap (spec-modelled `IdentSwapMutator`): rename the
identifier reference at the drawn index to a compatible in-scope name. -/

mutual

def idwE (tgt : ℕ) (newName : String) : JExpr → ℕ → JExpr × ℕ
  | .ident n, c =>
    if c = tgt then (.ident newName, c + 1) else (.ident n, c + 1)
  | .lit l, c => (.lit l, c)
  | .array elems, c =>
    let r := idwEls tgt newName elems c
    (.array r.1, r.2)
  | .bin op lhs rhs, c =>
    let rl := idwE tgt newName lhs c
    let rr := idwE tgt newName rhs rl.2
    (.bin op rl.1 rr.1, rr.2)
  | .memberNamed obj pr, c =>
    let ro := idwE tgt newName obj c
    (.memberNamed ro.1 pr, ro.2)
  | .memberComputed obj idx, c =>
    let ro := idwE tgt newName obj c
    let ri := idwE tgt newName idx ro.2
    (.memberComputed ro.1 ri.1, ri.2)
  | .call callee args, c =>
    let rc := idwE tgt newName callee c
    let ra := idwEs tgt newName args rc.2
    (.call rc.1 ra.1, ra.2)
  | .assign lhs rhs, c =>
    let rl := idwE tgt newName lhs c
    let rr := idwE tgt newName rhs rl.2
    (.assign rl.1 rr.1, rr.2)

def idwEs (tgt : ℕ) (newName : String) : JExprs → ℕ → JExprs × ℕ
  | .nil, c => (.nil, c)
  | .cons hd tl, c =>
    let rh := idwE tgt newName hd c
    let rt := idwEs tgt newName tl rh.2
    (.cons rh.1 rt.1, rt.2)

def idwEls (tgt : ℕ) (newName : String) : JElems → ℕ → JElems × ℕ
  | .nil, c => (.nil, c)
  | .consSome hd tl, c =>
    let rh := idwE tgt newName hd c
    let rt := idwEls tgt newName tl rh.2
    (.consSome rh.1 rt.1, rt.2)
  | .consNone tl, c =>
    let rt := idwEls tgt newName tl c
    (.consNone rt.1, rt.2)

def idwOE (tgt : ℕ) (newName : String) : JOExpr → ℕ → JOExpr × ℕ
  | .none, c => (.none, c)
  | .some e, c =>
    let r := idwE tgt newName e c
    (.some r.1, r.2)

def idwS (tgt : ℕ) (newName : String) : JStmt → ℕ → JStmt × ℕ
  | .exprStmt e, c =>
    let r := idwE tgt newName e c
    (.exprStmt r.1, r.2)
  | .varDecl decls, c =>
    let r := idwDs tgt newName decls c
    (.varDecl r.1, r.2)
  | .block stmts, c =>
    let r := idwSs tgt newName stmts c
    (.block r.1, r.2)
  | .ifStmt test cons alt, c =>
    let rt := idwE tgt newName test c
    let rc := idwS tgt newName cons rt.2
    let ra := idwOS tgt newName alt rc.2
    (.ifStmt rt.1 rc.1 ra.1, ra.2)
  | .forStmt finit test update body, c =>
    let ri := idwFI tgt newName finit c
    let rt := idwOE tgt newName test ri.2
    let ru := idwOE tgt newName update rt.2
    let rb := idwS tgt newName body ru.2
    (.forStmt ri.1 rt.1 ru.1 rb.1, rb.2)
  | .funcDecl name params body, c =>
    let r := idwSs tgt newName body c
    (.funcDecl name params r.1, r.2)
  | .ret arg, c =>
    let r := idwOE tgt newName arg c
    (.ret r.1, r.2)

def idwSs (tgt : ℕ) (newName : String) : JStmts → ℕ → JStmts × ℕ
  | .nil, c => (.nil, c)
  | .cons hd tl, c =>
    let rh := idwS tgt newName hd c
    let rt := idwSs tgt newName tl rh.2
    (.cons rh.1 rt.1, rt.2)

def idwOS (tgt : ℕ) (newName : String) : JOStmt → ℕ → JOStmt × ℕ
  | .none, c => (.none, c)
  | .some s, c =>
    let r := idwS tgt newName s c
    (.some r.1, r.2)

def idwDs (tgt : ℕ) (newName : String) : JDecls → ℕ → JDecls × ℕ
  | .nil, c => (.nil, c)
  | .cons name finit tl, c =>
    let ri := idwOE tgt newName finit c
    let rt := idwDs tgt newName tl ri.2
    (.cons name ri.1 rt.1, rt.2)

def idwFI (tgt : ℕ) (newName : String) : JForInit → ℕ → JForInit × ℕ
  | .none, c => (.none, c)
  | .expr e, c =>
    let r := idwE tgt newName e c
    (.expr r.1, r.2)
  | .decls ds, c =>
    let r := idwDs tgt newName ds c
    (.decls r.1, r.2)

end

/-! ### The mutator catalogue (`src/mutators/mod.rs`) -/

/-- Outcome of `AstMutator::mutate`: an `anyhow::Result` that may also fail
by panicking (the source's `unreachable!`). -/
inductive MutateOutcome where
  | ok (s : JScript)
  | err (msg : String)
  | panic (msg : String)

/-- The random draws any catalogue mutator may consume in one `mutate`
call. -/
structure MutRand where
  idx : ℕ
  idx2 : ℕ
  tweak : TweakDecision
  arr : ArrayDecision
  newOp : BinOp
  dupMode : Bool
  replacement : JExpr
  identName : String

/-- Mirrors `NumericTweaker::mutate`
(src/mutators/literals/numeric_tweaker.rs:388-406): count numeric literals,
return the input unchanged when there are none, otherwise tweak the literal
at the drawn index (`r.idx = rng.random_range(0..count)`). -/
def numericTweakerMutate (ast : JScript) (r : MutRand) : MutateOutcome :=
  if countNumericLiterals ast = 0 then .ok ast
  else .ok ⟨(twkSs r.tweak r.idx Option.none false ast.body 0).1⟩

/-- Mirrors `BooleanFlipper::mutate`
(src/mutators/literals/boolean_flipper.rs:47-66). -/
def booleanFlipperMutate (ast : JScript) (r : MutRand) : MutateOutcome :=
  if countBooleanLiterals ast = 0 then .ok ast
  else .ok ⟨(flipSs r.idx ast.body 0).1⟩

/-- Mirrors `ArrayMutator::mutate` (src/mutators/literals/array_mutator.rs:173-194). -/
def arrayMutatorMutate (ast : JScript) (r : MutRand) : MutateOutcome :=
  if countArrayLiterals ast = 0 then .ok ast
  else .ok ⟨(arrSs r.arr r.idx ast.body 0).1⟩

/-- Mirrors `OperatorSwap::mutate` (src/mutators/operators.rs:119-138). -/
def operatorSwapMutate (ast : JScript) (r : MutRand) : MutateOutcome :=
  if countOperators ast = 0 then .ok ast
  else .ok ⟨(opsSs r.newOp r.idx false ast.body 0).1⟩

/-- Modelled from the spec (§4.7): `ExpressionSwapDup`'s defining source is
missing from src/; swap/dup both need at least two collected expressions,
otherwise the input is returned unchanged. -/
def expressionSwapDupMutate (ast : JScript) (r : MutRand) : MutateOutcome :=
  if countExprs ast < 2 then .ok ast
  else if r.dupMode then .ok (dupExprAt ast r.idx r.replacement)
  else .ok (swapExprsAt ast r.idx r.idx2)

/-- Modelled from the spec (§4.7): `IdentSwapMutator`'s defining source is
missing from src/; with no identifier reference the input is returned
unchanged. -/
def identSwapMutate (ast : JScript) (r : MutRand) : MutateOutcome :=
  if countIdents ast = 0 then .ok ast
  else .ok ⟨(idwSs r.idx r.identName ast.body 0).1⟩

/-- Mirrors `RemovePropMutator::mutate` (src/mutators/elements.rs:373-417): the
counting pass drives the zero guard; the removal pass replaces the matching
member expression by its base identifier. -/
def removePropMutate (ast : JScript) (r : MutRand) : MutateOutcome :=
  if countMemberIdentBase ast = 0 then .ok ast
  else .ok ⟨(rmpSs r.idx ast.body 0).1⟩

/-- Mirrors `SpliceMutator::mutate` (src/mutators/splice.rs:108-110): unconditionally
`unreachable!` — it panics on every input; only `splice` is implemented. -/
def spliceMutatorMutate (_ast : JScript) (_r : MutRand) : MutateOutcome :=
  .panic ("SpliceMutator does not support mutate; use splice instead")

structure CatalogueMutator where
  name : String
  splicer : Bool
  applicabilityCount : JScript → ℕ
  mutate : JScript → MutRand → MutateOutcome

def numericTweakerM : CatalogueMutator :=
  ⟨"NumericTweaker", false, countNumericLiterals, numericTweakerMutate⟩

def booleanFlipperM : CatalogueMutator :=
  ⟨"BooleanFlipper", false, countBooleanLiterals, booleanFlipperMutate⟩

def arrayMutatorM : CatalogueMutator :=
  ⟨"ArrayMutator", false, countArrayLiterals, arrayMutatorMutate⟩

def operatorSwapM : CatalogueMutator :=
  ⟨"OperatorSwap", false, countOperators, operatorSwapMutate⟩

def expressionSwapDupM : CatalogueMutator :=
  ⟨"ExpressionSwapDup", false, countExprs, expressionSwapDupMutate⟩

def identSwapM : CatalogueMutator :=
  ⟨"IdentSwapMutator", false, countIdents, identSwapMutate⟩

def removePropM : CatalogueMutator :=
  ⟨"RemovePropMutator", false, countMemberIdentBase, removePropMutate⟩

/-- Mirrors `SpliceMutator`'s single-AST `mutate` is unimplemented — it has no
applicable site on any input (its real operation is the two-AST `splice`),
so its applicability count is 0 everywhere. -/
def spliceMutatorM : CatalogueMutator :=
  ⟨"SpliceMutator", true, fun _ => 0, spliceMutatorMutate⟩

/-- Mirrors `get_ast_mutators` (src/mutators/mod.rs:108-166), in registration
order (the commented-out entries are omitted). -/
def get_ast_mutators : List CatalogueMutator :=
  [numericTweakerM, booleanFlipperM, arrayMutatorM, operatorSwapM,
    expressionSwapDupM, identSwapM, removePropM, spliceMutatorM]

/-! ## Concrete fixtures

Small closed values used to evaluate the model on concrete inputs. -/

/-- A fresh tracker with threshold 2. -/
def freshTracker : EdgeTracker := ⟨∅, fun _ => 0, 2⟩

/-- A tracker in which every edge is already past the threshold. -/
def saturatedTracker : EdgeTracker := ⟨∅, fun _ => 5, 3⟩

/-- A clean execution reporting edge 7 on both runs. -/
def inpStable7 : ExecInput :=
  ⟨.ok 0 0, true, Option.some [7], .eval true (Option.some [7])⟩

/-- A timed-out execution. -/
def inpTimeout : ExecInput := ⟨.timeout, false, Option.none, .timeout⟩

/-- An execution that dies with an I/O error (surfaced as a crash). -/
def inpCrash : ExecInput := ⟨.ioErr, false, Option.none, .timeout⟩

/-- The job result the worker reports for a crash. -/
def crashResult : JobResult :=
  { status_code := -1, signal := -1, new_coverage := false, edge_hits := [],
    is_crash := true, is_timeout := false }

/-- A corpus with one live entry of fingerprint 42. -/
def oneEntryCorpus : CorpusManager :=
  { entries := [{ id := 0, path := "seed_0.js", fingerprint := 42,
                  edge_hits := [1], size_bytes := 3, total_reward := 0,
                  last_reward := 0, exec_time_ms := 1, num_mutations := 0,
                  last_selected_ts := Option.none }],
    next_id := 1 }

/-- A trivial deterministic stand-in for the fingerprint hash. -/
def fpLen : List ℕ → List ℕ → ℕ := fun s e => s.length + 1000 * e.length

/-- The empty script. -/
def emptyScript : JScript := ⟨.nil⟩

/-- A fixed bundle of random draws. -/
def rand0 : MutRand :=
  { idx := 0, idx2 := 1,
    tweak := { forTestMode := .inc, forTestStep := 3, arrChoice := .keep,
               arrDelta := 0, arrSmall := 0, plain := .flipSign },
    arr := { grow := true, growBy := 2, shrinkTo := 0,
             fill := .undefinedIdent },
    newOp := .add, dupMode := false, replacement := .ident ("x"),
    identName := "y" }

/-! ## Properties of the stability filter -/

theorem curate_blacklist (t : EdgeTracker) (l : List ℕ) :
    (curate t l).1.blacklist = t.blacklist := by
  induction l generalizing t with
  | nil => rfl
  | cons e rest ih =>
    simp only [curate]
    split
    · exact ih t
    · exact ih _

theorem curate_max (t : EdgeTracker) (l : List ℕ) :
    (curate t l).1.max_resets = t.max_resets := by
  induction l generalizing t with
  | nil => rfl
  | cons e rest ih =>
    simp only [curate]
    split
    · exact ih t
    · exact ih _

theorem curate_out_mem (t : EdgeTracker) (l : List ℕ) :
    ∀ e ∈ (curate t l).2, e ∈ l := by
  induction l generalizing t with
  | nil => intro e he; simp [curate] at he
  | cons a rest ih =>
    intro e he
    simp only [curate] at he
    split at he
    · exact List.mem_cons_of_mem a (ih t e he)
    · rcases List.mem_cons.mp he with h | h
      · simp [h]
      · exact List.mem_cons_of_mem a (ih _ e h)

theorem curate_seen (t : EdgeTracker) (l : List ℕ) :
    (curate t l).1.seen_edges = t.seen_edges ∪ (curate t l).2.toFinset := by
  induction l generalizing t with
  | nil => simp [curate]
  | cons a rest ih =>
    simp only [curate]
    split
    · exact ih t
    · have h := ih { t with seen_edges := insert a t.seen_edges }
      simp only at h
      simp only [List.toFinset_cons]
      rw [h, Finset.insert_union, Finset.union_insert]

theorem curate_out (t : EdgeTracker) (l : List ℕ) :
    (curate t l).2.toFinset =
      l.toFinset.filter
        (fun e => ¬ t.max_resets ≤ t.blacklist e ∧ e ∉ t.seen_edges) := by
  induction l generalizing t with
  | nil => simp [curate]
  | cons a rest ih =>
    simp only [curate]
    split
    · rename_i h
      rw [ih t]
      simp only [List.toFinset_cons, Finset.filter_insert]
      rw [if_neg]
      rintro ⟨hbl, hs⟩
      rcases h with h | h
      · exact hbl h
      · exact hs h
    · rename_i h
      have hb : ¬ t.max_resets ≤ t.blacklist a := fun hh => h (Or.inl hh)
      have hs : a ∉ t.seen_edges := fun hh => h (Or.inr hh)
      simp only [List.toFinset_cons, Finset.filter_insert]
      rw [if_pos ⟨hb, hs⟩]
      rw [ih]
      ext x
      simp only [Finset.mem_insert, Finset.mem_filter, Finset.mem_insert]
      constructor
      · rintro (rfl | ⟨hx, hb, hs⟩)
        · exact Or.inl rfl
        · exact Or.inr ⟨hx, hb, fun hmem => hs (Or.inr hmem)⟩
      · rintro (rfl | ⟨hx, hb, hs⟩)
        · exact Or.inl rfl
        · by_cases hxa : x = a
          · exact Or.inl hxa
          · exact Or.inr ⟨hx, hb, fun hmem => by
              rcases hmem with hmem | hmem
              · exact hxa hmem
              · exact hs hmem⟩

/-- On the edges of `S ∩ C` (the stable set) the aux increment is zero, so
the blacklist lookup the curation performs agrees with the pre-state. -/
theorem auxCount_stable (cand second : List ℕ) (e : ℕ)
    (h1 : e ∈ cand) (h2 : e ∈ second) : auxCount cand second e = 0 := by
  simp [auxCount, h1, h2]

theorem confirm_max (t : EdgeTracker) (cand : List ℕ) (run2 : Run2) :
    (confirm_new_edges t cand run2).1.max_resets = t.max_resets := by
  unfold confirm_new_edges
  split
  · rfl
  · match run2 with
    | .timeout => rfl
    | .execErr => rfl
    | .eval _ Option.none => rfl
    | .eval newCov (Option.some second) =>
      simp only
      split
      · rfl
      · exact curate_max _ _

theorem confirm_blacklist_mono (t : EdgeTracker) (cand : List ℕ)
    (run2 : Run2) (e : ℕ) :
    t.blacklist e ≤ (confirm_new_edges t cand run2).1.blacklist e := by
  unfold confirm_new_edges
  split
  · exact le_refl _
  · match run2 with
    | .timeout => exact le_refl _
    | .execErr => exact le_refl _
    | .eval _ Option.none => exact le_refl _
    | .eval newCov (Option.some second) =>
      simp only
      split
      · exact le_refl _
      · rw [curate_blacklist]
        exact Nat.le_add_right _ _

theorem confirm_seen_eq (t : EdgeTracker) (cand : List ℕ) (run2 : Run2) :
    (confirm_new_edges t cand run2).1.seen_edges =
      t.seen_edges ∪ (confirm_new_edges t cand run2).2.toFinset := by
  unfold confirm_new_edges
  split
  · simp
  · match run2 with
    | .timeout => simp
    | .execErr => simp
    | .eval _ Option.none => simp
    | .eval newCov (Option.some second) =>
      simp only
      split
      · simp
      · exact curate_seen _ _

theorem confirm_out_both (t : EdgeTracker) (cand : List ℕ) (run2 : Run2) :
    ∀ e ∈ (confirm_new_edges t cand run2).2,
      e ∈ cand ∧ e ∈ run2.reported := by
  intro e he
  unfold confirm_new_edges at he
  split at he
  · simp at he
  · match run2 with
    | .timeout => simp at he
    | .execErr => simp at he
    | .eval _ Option.none => simp at he
    | .eval newCov (Option.some second) =>
      simp only at he
      split at he
      · simp at he
      · have := curate_out_mem _ _ e he
        have hmem := List.mem_filter.mp this
        exact ⟨by simpa using hmem.2, by simpa [Run2.reported] using hmem.1⟩

/-- C1 — The stability filter: when the first run reports candidates `C`
and the re-execution reports `S` (a non-null, new-coverage evaluation), the
confirm step returns exactly the edges of `S ∩ C` that are neither already
seen nor blacklisted, adds every returned edge to `seen`, and on every
possible second-run outcome the edges added to `seen` are contained in
`C ∩ S`. -/
theorem confirm_stability_filter (t : EdgeTracker) (cand S : List ℕ) :
    ((confirm_new_edges t cand (.eval true (Option.some S))).2.toFinset =
      (S.toFinset ∩ cand.toFinset).filter
        (fun e => e ∉ t.seen_edges ∧ ¬ t.blacklisted e)) ∧
    ((confirm_new_edges t cand (.eval true (Option.some S))).1.seen_edges =
      t.seen_edges ∪
        (confirm_new_edges t cand (.eval true (Option.some S))).2.toFinset) ∧
    (∀ run2 : Run2,
      (confirm_new_edges t cand run2).1.seen_edges \ t.seen_edges ⊆
        cand.toFinset ∩ run2.reported.toFinset) := by
  have hseen := confirm_seen_eq t cand
  have hout := confirm_out_both t cand
  refine ⟨?_, hseen _, ?_⟩
  · by_cases hc : cand = []
    · subst hc
      simp [confirm_new_edges]
    · unfold confirm_new_edges
      rw [if_neg hc]
      simp only
      rw [if_neg (by simp)]
      rw [curate_out]
      have hstable : (S.filter (fun e => decide (e ∈ cand))).toFinset =
          S.toFinset ∩ cand.toFinset := by
        ext x
        simp [List.mem_filter]
      rw [hstable]
      apply Finset.filter_congr
      intro x hx
      simp only [Finset.mem_inter, List.mem_toFinset] at hx
      have haux : auxCount cand S x = 0 := auxCount_stable _ _ _ hx.2 hx.1
      simp only [haux, Nat.add_zero, EdgeTracker.blacklisted]
      tauto
  · intro run2 x hx
    rw [hseen run2] at hx
    rcases Finset.mem_sdiff.mp hx with ⟨hmem, hnot⟩
    rcases Finset.mem_union.mp hmem with h | h
    · exact absurd h hnot
    · rcases hout run2 x (List.mem_toFinset.mp h) with ⟨h1, h2⟩
      exact Finset.mem_inter.mpr ⟨List.mem_toFinset.mpr h1,
        List.mem_toFinset.mpr h2⟩

theorem confirm_blacklisted_preserved (t : EdgeTracker) (cand : List ℕ)
    (run2 : Run2) (e : ℕ) (hb : t.blacklisted e) :
    (confirm_new_edges t cand run2).1.blacklisted e := by
  unfold EdgeTracker.blacklisted at *
  rw [confirm_max]
  exact le_trans hb (confirm_blacklist_mono t cand run2 e)

theorem confirm_blacklisted_not_out (t : EdgeTracker) (cand : List ℕ)
    (run2 : Run2) (e : ℕ) (hb : t.blacklisted e) :
    e ∉ (confirm_new_edges t cand run2).2 := by
  intro he
  unfold confirm_new_edges at he
  split at he
  · simp at he
  · match run2 with
    | .timeout => simp at he
    | .execErr => simp at he
    | .eval _ Option.none => simp at he
    | .eval newCov (Option.some second) =>
      simp only at he
      split at he
      · simp at he
      · have hmem := List.mem_toFinset.mpr he
        rw [curate_out] at hmem
        have h2 := (Finset.mem_filter.mp hmem).2
        exact h2.1 (le_trans hb (Nat.le_add_right _ _))

theorem start_internal_blacklisted_preserved (t : EdgeTracker)
    (inp : ExecInput) (e : ℕ) (hb : t.blacklisted e) :
    (start_internal t inp).1.blacklisted e := by
  obtain ⟨e1, nc1, ed1, r2⟩ := inp
  cases e1 with
  | timeout => exact hb
  | ioErr => simpa [start_internal] using hb
  | ok ec sg =>
    cases ed1 with
    | none => simpa [start_internal] using hb
    | some es =>
      cases nc1 with
      | false => simpa [start_internal] using hb
      | true =>
        by_cases hes : es = []
        · simpa [start_internal, hes] using hb
        · simp only [start_internal, hes, ne_eq, not_false_iff, and_true,
            if_true, true_and, if_pos]
          split
          · exact confirm_blacklisted_preserved _ _ _ _ hb
          · exact confirm_blacklisted_preserved _ _ _ _ hb

theorem start_internal_no_blacklisted_hits (t : EdgeTracker)
    (inp : ExecInput) (e : ℕ) (hb : t.blacklisted e) :
    (start_internal t inp).2.new_coverage = true →
      e ∉ (start_internal t inp).2.edge_hits := by
  obtain ⟨e1, nc1, ed1, r2⟩ := inp
  cases e1 with
  | timeout => intro h; simp [start_internal] at h
  | ioErr => intro h; simp [start_internal] at h
  | ok ec sg =>
    cases ed1 with
    | none => intro _; simp [start_internal]
    | some es =>
      cases nc1 with
      | false => intro h; simp [start_internal] at h
      | true =>
        intro _
        by_cases hes : es = []
        · simp [start_internal, hes]
        · by_cases hcf : (confirm_new_edges t es r2).2 = []
          · simp [start_internal, hes, hcf]
          · simp only [start_internal, hes, ne_eq, not_false_iff, and_true,
              if_true, true_and, if_pos, hcf, if_neg]
            exact confirm_blacklisted_not_out _ _ _ _ hb

theorem start_internal_seen_sub (t : EdgeTracker) (inp : ExecInput)
    (e : ℕ) (hb : t.blacklisted e) :
    e ∈ (start_internal t inp).1.seen_edges → e ∈ t.seen_edges := by
  obtain ⟨e1, nc1, ed1, r2⟩ := inp
  have key : ∀ cand, e ∈ (confirm_new_edges t cand r2).1.seen_edges →
      e ∈ t.seen_edges := by
    intro cand hmem
    rw [confirm_seen_eq] at hmem
    rcases Finset.mem_union.mp hmem with h | h
    · exact h
    · exact absurd (List.mem_toFinset.mp h)
        (confirm_blacklisted_not_out t cand r2 e hb)
  cases e1 with
  | timeout => exact fun h => h
  | ioErr => simp [start_internal]
  | ok ec sg =>
    cases ed1 with
    | none => simp [start_internal]
    | some es =>
      cases nc1 with
      | false => simp [start_internal]
      | true =>
        by_cases hes : es = []
        · simp [start_internal, hes]
        · simp only [start_internal, hes, ne_eq, not_false_iff, and_true,
            if_true, true_and, if_pos]
          split
          · exact key _
          · exact key _

/-- C2 — Once an edge is blacklisted in the shared tracker, no subsequent
execution on any worker produces a job result with `new_coverage = true`
whose `edge_hits` contain it, the edge stays blacklisted, and it is never
added to the seen set. -/
theorem blacklisted_edge_never_contributes (t : EdgeTracker) (e : ℕ)
    (hb : t.blacklisted e) (inps : List ExecInput) :
    (∀ r ∈ (runJobs t inps).2, r.new_coverage = true → e ∉ r.edge_hits) ∧
    (runJobs t inps).1.blacklisted e ∧
    (e ∈ (runJobs t inps).1.seen_edges → e ∈ t.seen_edges) := by
  induction inps generalizing t with
  | nil => exact ⟨by simp [runJobs], hb, fun h => h⟩
  | cons inp rest ih =>
    have hb' := start_internal_blacklisted_preserved t inp e hb
    obtain ⟨ih1, ih2, ih3⟩ := ih (start_internal t inp).1 hb'
    refine ⟨?_, ih2, ?_⟩
    · intro r hr
      simp only [runJobs, List.mem_cons] at hr
      rcases hr with rfl | hr
      · exact start_internal_no_blacklisted_hits t inp e hb
      · exact ih1 r hr
    · intro hmem
      exact start_internal_seen_sub t inp e hb (ih3 hmem)

/-- Witness for C2 at a saturated tracker and one concrete job. -/
theorem blacklisted_edge_never_contributes_witness :
    saturatedTracker.blacklisted 7 ∧
    ((∀ r ∈ (runJobs saturatedTracker [inpStable7]).2,
        r.new_coverage = true → 7 ∉ r.edge_hits) ∧
      (runJobs saturatedTracker [inpStable7]).1.blacklisted 7 ∧
      (7 ∈ (runJobs saturatedTracker [inpStable7]).1.seen_edges →
        7 ∈ saturatedTracker.seen_edges)) :=
  ⟨by decide, blacklisted_edge_never_contributes saturatedTracker 7
    (by decide) [inpStable7]⟩

/-- C3 — Sentinel invariants of every job result: a timeout reports no
edges and no new coverage; a crash reports exit code and signal `-1`. -/
theorem job_result_sentinels (t : EdgeTracker) (inp : ExecInput) :
    ((start_internal t inp).2.is_timeout = true →
      (start_internal t inp).2.edge_hits = [] ∧
        (start_internal t inp).2.new_coverage = false) ∧
    ((start_internal t inp).2.is_crash = true →
      (start_internal t inp).2.status_code = -1 ∧
        (start_internal t inp).2.signal = -1) := by
  obtain ⟨e1, nc1, ed1, r2⟩ := inp
  cases e1 with
  | timeout => exact ⟨fun _ => ⟨rfl, rfl⟩, fun h => by simp [start_internal] at h⟩
  | ioErr =>
    exact ⟨fun h => by simp [start_internal] at h,
      fun _ => ⟨by simp [start_internal], by simp [start_internal]⟩⟩
  | ok ec sg =>
    refine ⟨fun h => by simp [start_internal] at h,
      fun h => by simp [start_internal] at h⟩

/-- Witness for C3 at a concrete timeout and a concrete crash. -/
theorem job_result_sentinels_witness :
    ((start_internal freshTracker inpTimeout).2.edge_hits = [] ∧
      (start_internal freshTracker inpTimeout).2.new_coverage = false) ∧
    ((start_internal freshTracker inpCrash).2.status_code = -1 ∧
      (start_internal freshTracker inpCrash).2.signal = -1) :=
  ⟨(job_result_sentinels freshTracker inpTimeout).1 rfl,
    (job_result_sentinels freshTracker inpCrash).2 rfl⟩

/-- C4 counterexample — when the second evaluation reports no new coverage
(here a null edge list), the edges of the symmetric difference `C △ S = C`
do **not** get their instability counts incremented: the tracker is
returned unchanged, contradicting the claim at this input. -/
theorem confirm_symmdiff_no_increment_counterexample :
    (5 ∈ [5] ∧ 5 ∉ (Run2.eval false Option.none).reported) ∧
    (confirm_new_edges freshTracker [5] (.eval false Option.none)).1.blacklist 5
      = freshTracker.blacklist 5 := by
  exact ⟨by decide, rfl⟩

/-- C4 amended — when the second evaluation does report new coverage (a
non-null edge list with the new-coverage flag set), every edge of the
symmetric difference `C △ S` has its instability count strictly
incremented in the shared tracker. -/
theorem confirm_symmdiff_increment (t : EdgeTracker) (cand S : List ℕ)
    (e : ℕ) (hc : cand ≠ [])
    (hsd : (e ∈ cand ∧ e ∉ S) ∨ (e ∈ S ∧ e ∉ cand)) :
    t.blacklist e <
      (confirm_new_edges t cand (.eval true (Option.some S))).1.blacklist e := by
  unfold confirm_new_edges
  rw [if_neg hc]
  simp only
  rw [if_neg (by simp)]
  rw [curate_blacklist]
  have haux : 0 < auxCount cand S e := by
    rcases hsd with ⟨h1, h2⟩ | ⟨h1, h2⟩
    · have : 0 < cand.count e := List.count_pos_iff.mpr h1
      simp only [auxCount, if_neg h2]
      omega
    · have : 0 < S.count e := List.count_pos_iff.mpr h1
      simp only [auxCount, if_neg h2]
      omega
  simp only
  omega

/-- Witness for the amended C4 at a concrete flaky pair of runs. -/
theorem confirm_symmdiff_increment_witness :
    ([5] ≠ ([] : List ℕ) ∧ ((5 ∈ [5] ∧ 5 ∉ [9]) ∨ (5 ∈ [9] ∧ 5 ∉ [5]))) ∧
    freshTracker.blacklist 5 <
      (confirm_new_edges freshTracker [5]
        (.eval true (Option.some [9]))).1.blacklist 5 :=
  ⟨⟨by decide, by decide⟩,
    confirm_symmdiff_increment freshTracker [5] [9] 5 (by decide)
      (by decide)⟩

/-! ## The fuzz loop's crash-persistence ordering -/

theorem getLast?_append_singleton {α : Type} (l : List α) (a : α) :
    (l ++ [a]).getLast? = Option.some a := by
  rw [List.getLast?_append_of_ne_nil l (by simp)]
  rfl

/-- C5 counterexample — on a crash result the handler's first trace event
is already a mutator-statistics update (`record_reward`), and the crash
file write only comes later, so the claim that `crashes/crash_<iter>.js`
is written before any mutator-statistics update fails at this input. -/
theorem crash_persist_order_counterexample :
    crashResult.is_crash = true ∧
    ¬ crashWrittenBeforeStats (result_handler_events 7 3 crashResult) :=
  ⟨rfl, by decide⟩

/-- C5 amended — for every crash result the handler does write the crash
reproducer, but as its final action: after the mutator-statistics updates
(`record_reward`, `record_invalid`, `record_timeout`) and the corpus
`record_result`, and it never attempts a corpus addition for that
result. -/
theorem crash_persisted_after_stats (iter id : ℕ) (r : JobResult)
    (hc : r.is_crash = true) :
    (result_handler_events iter id r).getLast? =
      Option.some (.persistCrash iter) ∧
    LoopEvent.corpusAddEntry ∉ result_handler_events iter id r ∧
    (∃ pre, result_handler_events iter id r =
        pre ++ [LoopEvent.persistCrash iter] ∧
      ∀ ev ∈ pre, isCrashWrite ev = false) := by
  have hev : result_handler_events iter id r =
      ([LoopEvent.recordReward (compute_reward r)]
        ++ (if r.is_timeout ∨ r.status_code ≠ 0 then [LoopEvent.recordInvalid]
            else [])
        ++ (if r.is_timeout then [LoopEvent.recordTimeout] else [])
        ++ [LoopEvent.corpusRecordResult id (compute_reward r)]
        ++ (if r.is_timeout then [LoopEvent.corpusAddTimeout] else []))
      ++ [LoopEvent.persistCrash iter] := by
    simp [result_handler_events, hc, List.append_assoc]
  refine ⟨?_, ?_, ?_⟩
  · rw [hev]
    exact getLast?_append_singleton _ _
  · rw [hev]
    split_ifs <;> simp
  · refine ⟨_, hev, ?_⟩
    split_ifs <;> (intro ev hev'; fin_cases hev' <;> rfl)

/-- Witness for the amended C5 at the concrete crash result. -/
theorem crash_persisted_after_stats_witness :
    crashResult.is_crash = true ∧
    ((result_handler_events 1 0 crashResult).getLast? =
        Option.some (.persistCrash 1) ∧
      LoopEvent.corpusAddEntry ∉ result_handler_events 1 0 crashResult ∧
      (∃ pre, result_handler_events 1 0 crashResult =
          pre ++ [LoopEvent.persistCrash 1] ∧
        ∀ ev ∈ pre, isCrashWrite ev = false)) :=
  ⟨rfl, crash_persisted_after_stats 1 0 crashResult rfl⟩

/-! ## Corpus manager: fingerprint uniqueness and metadata persistence -/

theorem list_set_get_self {α : Type} (l : List α) (n : ℕ) (h : n < l.length) :
    l.set n (l.get ⟨n, h⟩) = l := by
  apply List.ext_getElem
  · simp
  · intro i h1 h2
    rw [List.getElem_set]
    split
    · simp_all
    · rfl

theorem updateFirst_map_fingerprint (p : CorpusEntry → Bool)
    (f : CorpusEntry → CorpusEntry) (l : List CorpusEntry)
    (hf : ∀ e, (f e).fingerprint = e.fingerprint) :
    (updateFirst p f l).map CorpusEntry.fingerprint =
      l.map CorpusEntry.fingerprint := by
  induction l with
  | nil => rfl
  | cons a rest ih =>
    simp only [updateFirst]
    split
    · simp [hf]
    · simp [ih]

theorem pick_random_fingerprints (m : CorpusManager) (idx now : ℕ) :
    ((pick_random m idx now).1.entries).map CorpusEntry.fingerprint =
      m.entries.map CorpusEntry.fingerprint := by
  unfold pick_random
  split
  · rfl
  · split
    · rename_i h
      simp only
      rw [List.map_set]
      have hlen : idx < (m.entries.map CorpusEntry.fingerprint).length := by
        simpa using h
      have hget : CorpusEntry.fingerprint (m.entries.get ⟨idx, h⟩) =
          (m.entries.map CorpusEntry.fingerprint).get ⟨idx, hlen⟩ := by
        simp
      exact hget ▸ list_set_get_self _ idx hlen
    · rfl

theorem applyOp_preserves_distinct (fp : List ℕ → List ℕ → ℕ)
    (m : CorpusManager) (op : CorpusOp) (h : distinctFingerprints m) :
    distinctFingerprints (applyOp fp m op) := by
  cases op with
  | add script edges reward time is_timeout =>
    simp only [applyOp, add_entry]
    split
    · exact h
    · rename_i hfp
      split
      · exact h
      · unfold distinctFingerprints at *
        simp only [List.map_append, List.map_cons, List.map_nil]
        rw [List.nodup_append]
        refine ⟨h, List.nodup_singleton _, ?_⟩
        intro x hx hy
        simp only [List.mem_singleton] at hy
        subst hy
        have hfalse : CorpusManager.contains_fingerprint m
            (fp script edges) = false := Bool.eq_false_iff.mpr hfp
        have hall : ∀ e ∈ m.entries, ¬ e.fingerprint = fp script edges := by
          simpa [CorpusManager.contains_fingerprint, List.any_eq_false]
            using hfalse
        rcases List.mem_map.mp hx with ⟨e, he, hfe⟩
        exact hall e he hfe
  | record id reward time =>
    simp only [applyOp, record_result]
    split
    · unfold distinctFingerprints at *
      simp only
      have heq := updateFirst_map_fingerprint
        (fun entry => decide (entry.id = id))
        (fun entry =>
          { entry with
            last_reward := reward,
            total_reward := entry.total_reward + reward,
            exec_time_ms := time })
        m.entries (fun e => rfl)
      rwa [heq]
    · exact h
  | remove id =>
    simp only [applyOp, remove_entry]
    split
    · exact h
    · unfold distinctFingerprints at *
      simp only
      exact List.Nodup.sublist
        ((List.eraseIdx_sublist _ _).map CorpusEntry.fingerprint) h
  | pick idx now =>
    unfold distinctFingerprints at *
    simp only [applyOp]
    rwa [pick_random_fingerprints]

/-- C6 — `add_entry` on a duplicate fingerprint returns `None` and leaves
the manager, its disk, and the entry list untouched; consequently every
sequence of corpus operations preserves pairwise-distinct fingerprints of
the live entries. -/
theorem add_entry_fingerprint_dedup (fp : List ℕ → List ℕ → ℕ) :
    (∀ (m : CorpusManager) (script edges : List ℕ) (reward : ℚ)
        (time : ℕ) (is_timeout : Bool),
      CorpusManager.contains_fingerprint m (fp script edges) = true →
      add_entry fp m script edges reward time is_timeout =
        (m, [], Option.none)) ∧
    (∀ (m : CorpusManager) (ops : List CorpusOp),
      distinctFingerprints m → distinctFingerprints (applyOps fp m ops)) := by
  constructor
  · intro m script edges reward time is_timeout h
    simp [add_entry, h]
  · intro m ops
    induction ops generalizing m with
    | nil => exact fun h => h
    | cons op rest ih =>
      intro h
      exact ih _ (applyOp_preserves_distinct fp m op h)

/-- Witness for C6 at the one-entry corpus. -/
theorem add_entry_fingerprint_dedup_witness :
    (CorpusManager.contains_fingerprint oneEntryCorpus
        (fpLen (List.replicate 42 0) []) = true ∧
      add_entry fpLen oneEntryCorpus (List.replicate 42 0) [] 1 5 false =
        (oneEntryCorpus, [], Option.none)) ∧
    (distinctFingerprints oneEntryCorpus ∧
      distinctFingerprints (applyOps fpLen oneEntryCorpus
        [CorpusOp.pick 0 5, CorpusOp.record 0 1 9])) :=
  ⟨⟨by decide, (add_entry_fingerprint_dedup fpLen).1 _ _ _ _ _ _ (by decide)⟩,
    ⟨by decide, (add_entry_fingerprint_dedup fpLen).2 oneEntryCorpus
      [CorpusOp.pick 0 5, CorpusOp.record 0 1 9] (by decide)⟩⟩

/-- C7 counterexample — `pick_random` mutates corpus state (it bumps the
selected entry's `num_mutations` and stamps `last_selected_ts`) but
performs no disk write at all, so the claim that every mutating method
writes and renames the metadata fails at this input. -/
theorem pick_random_no_persist_counterexample :
    (pick_random oneEntryCorpus 0 99).1 ≠ oneEntryCorpus ∧
    (pick_random oneEntryCorpus 0 99).2.1 = [] := by
  exact ⟨by decide, rfl⟩

/-- C7 amended — the accepting path of `add_entry`, `record_result` on a
present id and `remove_entry` on a present id each end by writing
`metadata.json.tmp` and renaming it onto `metadata.json`; `pick_random`
performs no disk I/O, and the timeout path of `add_entry` writes only the
sidecar file, not the metadata. -/
theorem metadata_persistence_per_method (fp : List ℕ → List ℕ → ℕ) :
    (∀ (m : CorpusManager) (script edges : List ℕ) (reward : ℚ) (time : ℕ),
      CorpusManager.contains_fingerprint m (fp script edges) = false →
      ∃ pre, (add_entry fp m script edges reward time false).2.1 =
        pre ++ persistEvents) ∧
    (∀ (m : CorpusManager) (id : ℕ) (reward : ℚ) (time : ℕ),
      (m.entries.any (fun e => e.id = id)) = true →
      ∃ pre, (record_result m id reward time).2 = pre ++ persistEvents) ∧
    (∀ (m : CorpusManager) (id pos : ℕ),
      m.entries.findIdx? (fun e => e.id = id) = Option.some pos →
      ∃ pre, (remove_entry m id).2 = pre ++ persistEvents) ∧
    (∀ (m : CorpusManager) (idx now : ℕ),
      (pick_random m idx now).2.1 = []) ∧
    (∀ (m : CorpusManager) (script edges : List ℕ) (reward : ℚ) (time : ℕ),
      DiskEvent.writeTempMetadata ∉
        (add_entry fp m script edges reward time true).2.1) := by
  refine ⟨?_, ?_, ?_, ?_, ?_⟩
  · intro m script edges reward time hfp
    refine ⟨[DiskEvent.writeSeedFile ("seed_" ++ toString m.next_id ++ ".js")
      script], ?_⟩
    simp [add_entry, hfp]
  · intro m id reward time hany
    exact ⟨[], by simp [record_result, hany]⟩
  · intro m id pos hidx
    refine ⟨[DiskEvent.removeSeedFile
      (((m.entries.get? pos).map CorpusEntry.path).getD (""))], ?_⟩
    simp [remove_entry, hidx]
  · intro m idx now
    unfold pick_random
    split
    · rfl
    · split
      · rfl
      · rfl
  · intro m script edges reward time
    simp only [add_entry]
    split
    · simp
    · simp

/-- Witness for the amended C7 at the one-entry corpus. -/
theorem metadata_persistence_per_method_witness :
    (∃ pre, (add_entry fpLen oneEntryCorpus [1, 2, 3] [4] 1 5 false).2.1 =
      pre ++ persistEvents) ∧
    (∃ pre, (record_result oneEntryCorpus 0 2 7).2 = pre ++ persistEvents) ∧
    (∃ pre, (remove_entry oneEntryCorpus 0).2 = pre ++ persistEvents) ∧
    (pick_random oneEntryCorpus 0 99).2.1 = [] ∧
    DiskEvent.writeTempMetadata ∉
      (add_entry fpLen oneEntryCorpus [1, 2, 3] [4] 1 5 true).2.1 :=
  ⟨(metadata_persistence_per_method fpLen).1 _ _ _ _ _ (by decide),
    (metadata_persistence_per_method fpLen).2.1 _ _ _ _ (by decide),
    (metadata_persistence_per_method fpLen).2.2.1 _ _ 0 (by decide),
    (metadata_persistence_per_method fpLen).2.2.2.1 _ _ _,
    (metadata_persistence_per_method fpLen).2.2.2.2 _ _ _ _ _⟩

/-! ## Mutator catalogue: behaviour on inputs with no applicable site -/

/-- C8 counterexample — `SpliceMutator` sits in the catalogue, its
single-AST `mutate` has no applicable site on any input (here the empty
script, applicability count 0), and yet `mutate` does not return the input
unchanged: it panics (`unreachable!`). -/
theorem splice_mutate_panics_counterexample :
    spliceMutatorM ∈ get_ast_mutators ∧
    spliceMutatorM.applicabilityCount emptyScript = 0 ∧
    spliceMutatorM.mutate emptyScript rand0 ≠ .ok emptyScript := by
  refine ⟨by simp [get_ast_mutators], rfl, ?_⟩
  intro hcontra
  exact MutateOutcome.noConfusion hcontra

/-- C8 amended — every non-splicer mutator of the catalogue returns its
input unchanged (as `Ok`, without panicking) on every AST whose
applicability count for that mutator is 0; the splicer is excluded, since
its `mutate` panics unconditionally. -/
theorem mutators_identity_on_empty_sites :
    ∀ m ∈ get_ast_mutators, m.splicer = false →
      ∀ (ast : JScript) (r : MutRand),
        m.applicabilityCount ast = 0 → m.mutate ast r = .ok ast := by
  intro m hm hsp ast r hcount
  simp only [get_ast_mutators, List.mem_cons, List.not_mem_nil,
    or_false] at hm
  rcases hm with rfl | rfl | rfl | rfl | rfl | rfl | rfl | rfl
  · simp only [numericTweakerM] at hcount ⊢
    simp [numericTweakerMutate, hcount]
  · simp only [booleanFlipperM] at hcount ⊢
    simp [booleanFlipperMutate, hcount]
  · simp only [arrayMutatorM] at hcount ⊢
    simp [arrayMutatorMutate, hcount]
  · simp only [operatorSwapM] at hcount ⊢
    simp [operatorSwapMutate, hcount]
  · simp only [expressionSwapDupM] at hcount ⊢
    simp [expressionSwapDupMutate, hcount]
  · simp only [identSwapM] at hcount ⊢
    simp [identSwapMutate, hcount]
  · simp only [removePropM] at hcount ⊢
    simp [removePropMutate, hcount]
  · simp [spliceMutatorM] at hsp

/-- Witness for the amended C8: the `BooleanFlipper` on the empty script. -/
theorem mutators_identity_on_empty_sites_witness :
    booleanFlipperM ∈ get_ast_mutators ∧
    booleanFlipperM.splicer = false ∧
    booleanFlipperM.applicabilityCount emptyScript = 0 ∧
    booleanFlipperM.mutate emptyScript rand0 = .ok emptyScript :=
  ⟨by simp [get_ast_mutators], rfl, rfl,
    mutators_identity_on_empty_sites booleanFlipperM
      (by simp [get_ast_mutators]) rfl emptyScript rand0 rfl⟩

/-! ## NumericTweaker: loop-test and array-index value bounds -/

theorem roundQ_mem (q : ℚ) (lo hi : ℤ) (h1 : (lo : ℚ) ≤ q)
    (h2 : q ≤ (hi : ℚ)) : lo ≤ FVal.roundQ q ∧ FVal.roundQ q ≤ hi := by
  unfold FVal.roundQ
  split
  · refine ⟨?_, ?_⟩
    · rw [Int.le_floor]
      linarith
    · rw [Int.floor_le_iff]
      linarith
  · refine ⟨?_, ?_⟩
    · have h3 : ⌊-q + 1 / 2⌋ ≤ -lo := by
        rw [Int.floor_le_iff]
        push_cast
        linarith
      omega
    · have h4 : -hi ≤ ⌊-q + 1 / 2⌋ := by
        rw [Int.le_floor]
        push_cast
        linarith
      omega

theorem clamp_test_int (original : FVal) (m : ℤ) :
    (clamp_for_test_bound original (.fin (m : ℚ))).isIntIn 0 1000 := by
  have e0 : (if (FVal.fin (m : ℚ)).isFinite then FVal.fin (m : ℚ)
      else original) = .fin (m : ℚ) := rfl
  simp only [clamp_for_test_bound, e0]
  by_cases h1 : (m : ℚ) < -1000
  · have hcl : FVal.clampRust (.fin (m : ℚ)) (-1000) 1000 = .fin (-1000) := by
      simp [FVal.clampRust, FVal.flt, h1]
    rw [hcl]
    have e2 : (if (FVal.fin (-1000)).flt (.fin 0) then FVal.fin 0
        else FVal.fin (-1000)) = .fin 0 := by decide
    rw [e2]
    split
    · exact ⟨1, by norm_num, by norm_num, by norm_num⟩
    · exact ⟨0, by norm_num, le_refl 0, by norm_num⟩
  · by_cases h2 : (1000 : ℚ) < (m : ℚ)
    · have hcl : FVal.clampRust (.fin (m : ℚ)) (-1000) 1000 = .fin 1000 := by
        simp [FVal.clampRust, FVal.flt, h1, h2]
      rw [hcl]
      have e2 : (if (FVal.fin 1000).flt (.fin 0) then FVal.fin 0
          else FVal.fin 1000) = .fin 1000 := by decide
      rw [e2]
      rw [if_neg (fun hc => absurd hc.1 (by decide))]
      exact ⟨1000, by norm_num, by norm_num, by norm_num⟩
    · have hcl : FVal.clampRust (.fin (m : ℚ)) (-1000) 1000 =
          .fin (m : ℚ) := by
        simp [FVal.clampRust, FVal.flt, h1, h2]
      rw [hcl]
      by_cases h3 : (m : ℚ) < 0
      · have e2 : (if (FVal.fin (m : ℚ)).flt (.fin 0) then FVal.fin 0
            else FVal.fin (m : ℚ)) = .fin 0 := by simp [FVal.flt, h3]
        rw [e2]
        split
        · exact ⟨1, by norm_num, by norm_num, by norm_num⟩
        · exact ⟨0, by norm_num, le_refl 0, by norm_num⟩
      · have e2 : (if (FVal.fin (m : ℚ)).flt (.fin 0) then FVal.fin 0
            else FVal.fin (m : ℚ)) = .fin (m : ℚ) := by simp [FVal.flt, h3]
        rw [e2]
        split
        · exact ⟨1, by norm_num, by norm_num, by norm_num⟩
        · have hm0 : (0 : ℤ) ≤ m := by exact_mod_cast not_lt.mp h3
          have hm1 : m ≤ 1000 := by exact_mod_cast not_lt.mp h2
          exact ⟨m, rfl, hm0, hm1⟩

theorem add_fin_ne_nan (v : FVal) (c : ℚ) (hv : v ≠ .nan) :
    v.add (.fin c) ≠ .nan := by
  cases v with
  | nan => exact absurd rfl hv
  | inf b => simp [FVal.add]
  | fin q => simp [FVal.add]

theorem roundRust_ne_nan (v : FVal) (hv : v ≠ .nan) :
    v.roundRust ≠ .nan := by
  cases v with
  | nan => exact absurd rfl hv
  | inf b => simp [FVal.roundRust]
  | fin q => simp [FVal.roundRust]

theorem roundQ_intCast (n : ℤ) : FVal.roundQ (n : ℚ) = n := by
  unfold FVal.roundQ
  split
  · rw [add_comm, Int.floor_add_int]
    norm_num
  · rw [show (-(n : ℚ) + 1 / 2) = 1 / 2 + ((-n : ℤ) : ℚ) by push_cast; ring,
      Int.floor_add_int]
    norm_num

theorem roundRust_intlit (n : ℤ) :
    FVal.roundRust (.fin (n : ℚ)) = .fin (n : ℚ) := by
  show FVal.fin _ = _
  rw [roundQ_intCast]

theorem arr_tail_int (nv : FVal) (hnv : nv ≠ .nan) :
    (FVal.roundRust
      (if (FVal.fin 1024).flt (if nv.flt (.fin 0) then FVal.fin 0 else nv)
       then FVal.fin 1024
       else if nv.flt (.fin 0) then FVal.fin 0 else nv)).isIntIn 0 1024 := by
  have c0 : ((0 : ℤ) : ℚ) = (0 : ℚ) := by norm_num
  have c1024 : ((1024 : ℤ) : ℚ) = (1024 : ℚ) := by norm_num
  cases nv with
  | nan => exact absurd rfl hnv
  | inf b =>
    cases b
    · have e1 : (if (FVal.inf false).flt (.fin 0) then FVal.fin 0
          else FVal.inf false) = FVal.inf false := by decide
      rw [e1]
      have e2 : (if (FVal.fin 1024).flt (FVal.inf false) then FVal.fin 1024
          else FVal.inf false) = .fin 1024 := by decide
      rw [e2, ← c1024, roundRust_intlit]
      exact ⟨1024, rfl, by norm_num, le_refl _⟩
    · have e1 : (if (FVal.inf true).flt (.fin 0) then FVal.fin 0
          else FVal.inf true) = FVal.fin 0 := by decide
      rw [e1]
      have e2 : (if (FVal.fin 1024).flt (FVal.fin 0) then FVal.fin 1024
          else FVal.fin 0) = .fin 0 := by decide
      rw [e2, ← c0, roundRust_intlit]
      exact ⟨0, rfl, le_refl _, by norm_num⟩
  | fin q =>
    by_cases h0 : q < 0
    · have e1 : (if (FVal.fin q).flt (.fin 0) then FVal.fin 0 else .fin q) =
          .fin 0 := by simp [FVal.flt, h0]
      rw [e1]
      have e2 : (if (FVal.fin 1024).flt (FVal.fin 0) then FVal.fin 1024
          else FVal.fin 0) = .fin 0 := by decide
      rw [e2, ← c0, roundRust_intlit]
      exact ⟨0, rfl, le_refl _, by norm_num⟩
    · have e1 : (if (FVal.fin q).flt (.fin 0) then FVal.fin 0 else .fin q) =
          .fin q := by simp [FVal.flt, h0]
      rw [e1]
      by_cases h2 : (1024 : ℚ) < q
      · have e2 : (if (FVal.fin 1024).flt (.fin q) then FVal.fin 1024
            else .fin q) = .fin 1024 := by simp [FVal.flt, h2]
        rw [e2, ← c1024, roundRust_intlit]
        exact ⟨1024, rfl, by norm_num, le_refl _⟩
      · have e2 : (if (FVal.fin 1024).flt (.fin q) then FVal.fin 1024
            else .fin q) = .fin q := by simp [FVal.flt, h2]
        rw [e2]
        have hb := roundQ_mem q 0 1024 (by simpa using not_lt.mp h0)
          (by exact_mod_cast not_lt.mp h2)
        exact ⟨FVal.roundQ q, rfl, hb.1, hb.2⟩

/-- C9 — When the `NumericTweaker` mutates a numeric literal in the test
clause of a classical `for` statement, the resulting literal value is an
integer in `[0, 1000]`; when it mutates a numeric literal used as a
computed member index, the result is an integer in `[0, 1024]`.  (A parsed
numeric literal is never NaN, which the hypotheses record.) -/
theorem numeric_tweaker_bounds :
    (∀ (original : FVal) (mode : ForTestMode) (step : ℤ),
      original ≠ .nan → (forTestTweak original mode step).isIntIn 0 1000) ∧
    (∀ (original : FVal) (choice : ArrayIdxChoice) (delta : ℤ) (small : ℕ),
      original ≠ .nan →
        (arrayIndexTweak original choice delta small).isIntIn 0 1024) := by
  constructor
  · intro original mode step ho
    cases original with
    | nan => exact absurd rfl ho
    | inf b =>
      have hred : forTestTweak (.inf b) mode step =
          clamp_for_test_bound (.inf b) (.inf b) := by
        cases mode <;> rfl
      rw [hred]
      cases b
      · exact ⟨1000, by decide, by norm_num, by norm_num⟩
      · exact ⟨0, by decide, le_refl 0, by norm_num⟩
    | fin q =>
      have hred : ∃ x : ℚ, forTestTweak (.fin q) mode step =
          clamp_for_test_bound (.fin q) (.fin ((FVal.roundQ x : ℤ) : ℚ)) := by
        cases mode <;> exact ⟨_, rfl⟩
      rcases hred with ⟨x, hx⟩
      rw [hx]
      exact clamp_test_int _ _
  · intro original choice delta small ho
    cases choice with
    | keep => exact arr_tail_int original ho
    | smallDelta =>
      exact arr_tail_int _
        (roundRust_ne_nan _ (add_fin_ne_nan _ _ ho))
    | randomSmall => exact arr_tail_int (.fin small) (by simp)
    | zero => exact arr_tail_int (.fin 0) (by simp)
    | one => exact arr_tail_int (.fin 1) (by simp)

/-- Witness for C9 at the literal 7 with an increment draw and a kept
index draw. -/
theorem numeric_tweaker_bounds_witness :
    (FVal.fin 7 ≠ FVal.nan ∧
      (forTestTweak (.fin 7) .inc 3).isIntIn 0 1000) ∧
    (FVal.fin 7 ≠ FVal.nan ∧
      (arrayIndexTweak (.fin 7) .keep 0 0).isIntIn 0 1024) :=
  ⟨⟨by decide, numeric_tweaker_bounds.1 (.fin 7) .inc 3 (by decide)⟩,
    ⟨by decide, numeric_tweaker_bounds.2 (.fin 7) .keep 0 0 (by decide)⟩⟩

/-! ## Managed mutator statistics: double counting of `uses` -/

theorem runAttempts_spec (s : MutatorStats) (rs : List ℚ) :
    (s.runAttempts rs).uses = s.uses + 2 * rs.length ∧
    (s.runAttempts rs).total_reward = s.total_reward + rs.sum ∧
    (rs ≠ [] → (s.runAttempts rs).mean_reward =
      (s.runAttempts rs).total_reward / ((s.runAttempts rs).uses : ℚ)) := by
  induction rs generalizing s with
  | nil => simp [MutatorStats.runAttempts]
  | cons r rest ih =>
    obtain ⟨ih1, ih2, ih3⟩ := ih (s.attempt r)
    refine ⟨?_, ?_, ?_⟩
    · simp only [MutatorStats.runAttempts, List.foldl_cons] at ih1 ⊢
      rw [ih1]
      simp only [MutatorStats.attempt, MutatorStats.recordReward,
        MutatorStats.useBump, List.length_cons]
      ring
    · simp only [MutatorStats.runAttempts, List.foldl_cons] at ih2 ⊢
      rw [ih2]
      simp only [MutatorStats.attempt, MutatorStats.recordReward,
        MutatorStats.useBump, List.sum_cons]
      ring
    · intro _
      rcases eq_or_ne rest [] with rfl | hrest
      · simp only [MutatorStats.runAttempts, List.foldl_cons, List.foldl_nil]
        simp [MutatorStats.attempt, MutatorStats.recordReward,
          MutatorStats.useBump]
      · simp only [MutatorStats.runAttempts, List.foldl_cons] at ih3 ⊢
        exact ih3 hrest

/-- C10 — Each completed attempt bumps `uses` twice (once in
`ManagedMutator::mutate`/`splice`, once in `record_reward`), so after `n`
completed attempts `uses = 2n`, `total_reward` is the sum of the rewards,
`mean_reward = total_reward / uses` equals half the average reward per
execution, and that `mean_reward` is exactly the quantity the bandit's
selection weight uses whenever it is positive. -/
theorem mutator_uses_double_counting (rs : List ℚ) (hne : rs ≠ []) :
    (MutatorStats.runAttempts .init rs).uses = 2 * rs.length ∧
    (MutatorStats.runAttempts .init rs).total_reward = rs.sum ∧
    (MutatorStats.runAttempts .init rs).mean_reward =
      (rs.sum / (rs.length : ℚ)) / 2 ∧
    (0 < (MutatorStats.runAttempts .init rs).mean_reward →
      banditWeight (MutatorStats.runAttempts .init rs) =
        (MutatorStats.runAttempts .init rs).mean_reward) := by
  obtain ⟨h1, h2, h3⟩ := runAttempts_spec .init rs
  have hlen : rs.length ≠ 0 := fun hl => hne (List.length_eq_zero.mp hl)
  have huses : (MutatorStats.runAttempts .init rs).uses = 2 * rs.length := by
    simpa [MutatorStats.init] using h1
  have htot : (MutatorStats.runAttempts .init rs).total_reward = rs.sum := by
    simpa [MutatorStats.init] using h2
  have hmean : (MutatorStats.runAttempts .init rs).mean_reward =
      (rs.sum / (rs.length : ℚ)) / 2 := by
    rw [h3 hne, huses, htot]
    rw [div_div]
    push_cast
    ring_nf
  refine ⟨huses, htot, hmean, ?_⟩
  intro hpos
  unfold banditWeight
  rw [if_neg (by rw [huses]; positivity), if_pos hpos]

/-- Witness for C10 at the reward sequence `[5, 0]`. -/
theorem mutator_uses_double_counting_witness :
    ([(5 : ℚ), 0] ≠ [] ∧
      (MutatorStats.runAttempts .init [(5 : ℚ), 0]).uses = 2 * 2) ∧
    (MutatorStats.runAttempts .init [(5 : ℚ), 0]).total_reward = 5 ∧
    (MutatorStats.runAttempts .init [(5 : ℚ), 0]).mean_reward =
      ((5 : ℚ) / 2) / 2 := by
  have h := mutator_uses_double_counting [(5 : ℚ), 0] (by simp)
  refine ⟨⟨by simp, ?_⟩, ?_, ?_⟩
  · simpa using h.1
  · simpa using h.2.1
  · have := h.2.2.1
    norm_num at this ⊢
    exact this

end Jellyfuzz
